import Mathlib

/-!
Verification development for the SQLite declarative schema migrator
(`src/migrator.ts`).  The TypeScript source is shallowly embedded:

* the lexical helpers (`normaliseSql`, the dangerous-pattern scanners of
  `ensurePristine`) are modelled character by character, following the
  semantics of the JavaScript regexes used by the source;
* the migration engine (`Migrator.migrate`, `performMigration`,
  `recreateTable`, `migratePragma`, `begin`, `onError`, `afterCommit`) is
  modelled as a pure state-passing program over an abstract catalog image
  of a SQLite database file, recording every statement executed against
  the live connection in a trace.

External SQLite behaviour (statement execution effects on `sqlite_master`,
`PRAGMA` connection state, transaction commit/rollback) is modelled as the
specification describes the engine: reads return the catalog, `CREATE`
appends the executed statement text, `DROP TABLE` also removes the
table's own indices and triggers, commit publishes the transaction image,
rollback discards it.  Row data, file bytes and `VACUUM` compaction are
outside the model; `PRAGMA foreign_key_check` results and arbitrary
statement failures are supplied by oracles so that theorems can quantify
over them.
-/

namespace Migrator

/-! ## Character classes used by the JavaScript regexes -/

/-- Character class of the JavaScript regex `\w`: ASCII letters, digits
and underscore. -/
def isWordChar (c : Char) : Bool :=
  ('a' ≤ c && c ≤ 'z') || ('A' ≤ c && c ≤ 'Z') || ('0' ≤ c && c ≤ '9') || c = '_'

/-- Character class of the JavaScript regex `\s` (restricted to the
whitespace forms that can occur in SQL text: space, tab, line feed,
vertical tab, form feed, carriage return, NBSP, BOM). -/
def isJsWs (c : Char) : Bool :=
  c = ' ' || c = '\t' || c = '\n' || c = '\r' ||
  c = Char.ofNat 11 || c = Char.ofNat 12 ||
  c = Char.ofNat 160 || c = Char.ofNat 65279

/-- ASCII lower-casing, as performed by the `i` flag of the JavaScript
regexes over the ASCII patterns used in the source. -/
def lowerAscii (c : Char) : Char :=
  if 'A' ≤ c ∧ c ≤ 'Z' then Char.ofNat (c.toNat + 32) else c

/-- Case-insensitive comparison of a (lower-case) pattern against the head
of the input. -/
def ciHeadMatch (pat : List Char) (cs : List Char) : Bool :=
  (cs.take pat.length).map lowerAscii = pat

/-- String trimming as performed by JavaScript `String.prototype.trim`
(used by `ensurePristine` for the empty-schema check and as step 5 of
`normaliseSql`). -/
def jsTrim (cs : List Char) : List Char :=
  ((cs.dropWhile isJsWs).reverse.dropWhile isJsWs).reverse

/-- Length bound used in termination arguments. -/
theorem len_dropWhile_le (p : Char → Bool) (l : List Char) :
    (l.dropWhile p).length ≤ l.length := by
  induction l with
  | nil => simp [List.dropWhile]
  | cons c rest ih =>
    by_cases hc : p c
    · simp [List.dropWhile, hc]
      omega
    · simp [List.dropWhile, hc]

/-! ## The SQL normalizer (`normaliseSql`, migrator.ts lines 701 to 708)

Each regex replacement of the source pipeline is modelled as one function
on character lists, applied in the source order: `--`-comment removal,
whitespace collapsing, space removal around delimiters, identifier-quote
stripping, trimming. -/

/-- Model of the first replacement, pattern "--[^\n]*\n" replaced globally by the empty string: each `--` comment is removed
together with its terminating newline; a final comment with no newline is
kept, because the regex requires the `\n` (and then no later match can
exist either). -/
def stripCommF : Nat → List Char → List Char
  | 0, l => l
  | _ + 1, [] => []
  | _ + 1, [c] => [c]
  | f + 1, c :: d :: rest =>
    if c = '-' ∧ d = '-' then
      match rest.dropWhile (fun x => x ≠ '\n') with
      | [] => c :: d :: rest
      | _ :: rest2 => stripCommF f rest2
    else
      c :: stripCommF f (d :: rest)

/-- Wrapper supplying sufficient fuel (each step consumes at least one
input character, so the input length suffices). -/
def stripLineComments (l : List Char) : List Char := stripCommF (l.length + 1) l

/-- Model of the second replacement, pattern "\s+" replaced globally by a single space: every maximal whitespace run becomes
a single space. -/
def collapseWsF : Nat → List Char → List Char
  | 0, l => l
  | _ + 1, [] => []
  | f + 1, c :: rest =>
    if isJsWs c then ' ' :: collapseWsF f (rest.dropWhile isJsWs)
    else c :: collapseWsF f rest

/-- Wrapper supplying sufficient fuel. -/
def collapseWs (l : List Char) : List Char := collapseWsF (l.length + 1) l

/-- The delimiter class `[(),]` of the third replacement. -/
def isDelim (c : Char) : Bool :=
  c = '(' || c = ')' || c = ','

/-- Model of the third replacement, pattern " *([(),]) *" replaced globally by the captured delimiter: spaces adjacent to `(`,
`)` or `,` are removed (the run of spaces preceding a delimiter together
with the run following it is replaced by the bare delimiter). -/
def squeezeDelimsF : Nat → List Char → List Char
  | 0, l => l
  | _ + 1, [] => []
  | f + 1, c :: rest =>
    if isDelim c then c :: squeezeDelimsF f (rest.dropWhile (fun x => x = ' '))
    else if c = ' ' then
      match rest.dropWhile (fun x => x = ' ') with
      | [] => c :: rest
      | d :: rest2 =>
        if isDelim d then d :: squeezeDelimsF f (rest2.dropWhile (fun x => x = ' '))
        else c :: rest.takeWhile (fun x => x = ' ') ++ squeezeDelimsF f (d :: rest2)
    else c :: squeezeDelimsF f rest

/-- Wrapper supplying sufficient fuel. -/
def squeezeDelims (l : List Char) : List Char := squeezeDelimsF (l.length + 1) l

/-- Generic model of the fourth replacement, a quoted pattern replaced globally by its captured content, where `R` is a run of
`\w` characters further constrained by `good` (the full quoted content must
be a non-empty word run accepted by `good`, immediately followed by the
closing quote). -/
def stripQuotesByF (good : List Char → Bool) : Nat → List Char → List Char
  | 0, l => l
  | _ + 1, [] => []
  | f + 1, c :: rest =>
    if c = '"' then
      match rest.dropWhile isWordChar with
      | [] => c :: stripQuotesByF good f rest
      | d :: rest2 =>
        if good (rest.takeWhile isWordChar) ∧ d = '"' then
          rest.takeWhile isWordChar ++ stripQuotesByF good f rest2
        else c :: stripQuotesByF good f rest
    else c :: stripQuotesByF good f rest

/-- Wrapper supplying sufficient fuel. -/
def stripQuotesBy (good : List Char → Bool) (l : List Char) : List Char :=
  stripQuotesByF good (l.length + 1) l

/-- Acceptance of the source pattern `\w+`: any non-empty word run. -/
def goodWordRun (run : List Char) : Bool := !run.isEmpty

/-- Acceptance of the pattern the specification claims,
`[A-Za-z_][A-Za-z0-9_]*`: a non-empty word run whose first character is a
letter or underscore. -/
def goodIdentRun (run : List Char) : Bool :=
  match run with
  | [] => false
  | r :: _ => ('a' ≤ r && r ≤ 'z') || ('A' ≤ r && r ≤ 'Z') || r = '_'

/-- The source normalizer `normaliseSql` (migrator.ts lines 701 to 708):
comment removal, whitespace collapapsing to single spaces, space removal
around delimiters, stripping double quotes from `\w+` identifiers, and
trimming, in that order. -/
def normaliseSql (s : String) : String :=
  String.mk (jsTrim (stripQuotesBy goodWordRun
    (squeezeDelims (collapseWs (stripLineComments s.data)))))

/-- Modelled from the spec: the normalizer as claim C7 describes it, with
step 4 stripping quotes only from identifiers matching
`"[A-Za-z_][A-Za-z0-9_]*"` (so quoted identifiers beginning with a digit
would keep their quotes). -/
def normaliseSqlClaim (s : String) : String :=
  String.mk (jsTrim (stripQuotesBy goodIdentRun
    (squeezeDelims (collapseWs (stripLineComments s.data)))))

/-! ## Schema validation scanners (`ensurePristine`, migrator.ts lines 158 to 171)

The three dangerous patterns are tested with `RegExp.test` against the raw
schema text.  Each is modelled as a character scanner implementing the
regex semantics: case-insensitive matching, a word boundary before the
first keyword, at least one whitespace character between keywords, and
(for the pragma pattern) a negative lookahead whose alternatives match the
whitelisted names as prefixes of the following text. -/

/-- Whitelisted pragma names (`SAFE_PRAGMAS`, migrator.ts lines 618 to 624),
also the alternatives of the negative lookahead in the scan regex. -/
def safePragmaNames : List String :=
  ["foreign_keys", "user_version", "defer_foreign_keys", "foreign_key_check",
   "table_info"]

/-- Whether one of the whitelisted names matches (case-insensitively) a
prefix of the text, exactly what the negative lookahead of the source
regex tests at the position after the whitespace. -/
def wlPref (cs : List Char) : Bool :=
  safePragmaNames.any (fun w => ciHeadMatch w.data cs)

/-- The word boundary test of `\b` before a word character: the previous
character (if any) is not a word character. -/
def bdryBefore (prev : Option Char) : Bool :=
  match prev with
  | some p => !isWordChar p
  | none => true

/-- Match of the unsafe-pragma regex at exactly one position: a word
boundary, the keyword `pragma` (case-insensitive), at least one whitespace
character, then a word character at a position where the negative
lookahead over the whitelist prefixes succeeds.  Backtracking of the
greedy whitespace cannot produce other matches because neither the
lookahead alternatives nor `\w` match a whitespace character. -/
def unsafePragmaAt (prev : Option Char) (cs : List Char) : Bool :=
  bdryBefore prev && ciHeadMatch "pragma".data cs &&
  (match cs.drop 6 with
   | [] => false
   | d :: ds =>
     isJsWs d &&
     (match (d :: ds).dropWhile isJsWs with
      | [] => false
      | t :: ts => isWordChar t && !wlPref (t :: ts)))

/-- Scan of the whole text for the unsafe-pragma pattern (the source uses
`test`, i.e. existence of a match). -/
def scanUnsafePragmaGo : Option Char → List Char → Bool
  | _, [] => false
  | prev, c :: rest => unsafePragmaAt prev (c :: rest) || scanUnsafePragmaGo (some c) rest

/-- Whether the third dangerous pattern of `ensurePristine` matches the
schema text. -/
def scanUnsafePragma (s : String) : Bool :=
  scanUnsafePragmaGo none s.data

/-- Match, at one position, of a two-keyword pattern such as the attach
and detach regexes: word boundary, first keyword, whitespace run, second
keyword, word boundary after it. -/
def kwPairAt (kw1 kw2 : List Char) (prev : Option Char) (cs : List Char) : Bool :=
  bdryBefore prev && ciHeadMatch kw1 cs &&
  (match cs.drop kw1.length with
   | [] => false
   | d :: ds =>
     isJsWs d &&
     (let tail := (d :: ds).dropWhile isJsWs
      ciHeadMatch kw2 tail &&
      (match tail.drop kw2.length with
       | [] => true
       | e :: _ => !isWordChar e)))

/-- Scan of the whole text for a two-keyword pattern. -/
def scanKwPairGo (kw1 kw2 : List Char) : Option Char → List Char → Bool
  | _, [] => false
  | prev, c :: rest => kwPairAt kw1 kw2 prev (c :: rest) || scanKwPairGo kw1 kw2 (some c) rest

/-- Whether the first dangerous pattern (attach database) matches. -/
def scanAttach (s : String) : Bool :=
  scanKwPairGo "attach".data "database".data none s.data

/-- Whether the second dangerous pattern (detach database) matches. -/
def scanDetach (s : String) : Bool :=
  scanKwPairGo "detach".data "database".data none s.data

/-- Errors raised by the migrator.  The source throws `RuntimeError` with
distinguishing message fragments; the model tags the kinds (spec section 7)
and carries the data interpolated into the message. -/
inductive MigErr where
  | invalidSchema (msg : String)
  | refuseDeleteTables (names : List String)
  | refuseRemoveColumns (cols : List String) (tbl : String)
  | fkViolation
  | unsafePragma (name : String)
  | execFailure
deriving DecidableEq, Repr

/-! ## Catalog model of a SQLite database file

`sqlite_master` is modelled as association lists in row order (creation
order); `PRAGMA table_info` as the per-table column-name list; the stored
`user_version`.  Row data and file bytes are outside the model (none of
the settled claims depends on them).  The `foreign_keys` and
`defer_foreign_keys` pragmas are connection state and live in the machine
state `St`, not in the file. -/

/-- One `sqlite_master` table row together with its `table_info` column
names. -/
structure TableEntry where
  name : String
  sql : String
  cols : List String
deriving DecidableEq, Repr

/-- One `sqlite_master` row of kind index, trigger or view: name,
`tbl_name`, and `sql` (empty string models the NULL `sql` of auto-created
indices). -/
structure ObjEntry where
  name : String
  tbl : String
  sql : String
deriving DecidableEq, Repr

/-- Catalog image of one database file. -/
structure DBFile where
  tables : List TableEntry
  indices : List ObjEntry
  triggers : List ObjEntry
  views : List ObjEntry
  userVersion : Int
deriving DecidableEq, Repr

/-- The pristine in-memory database after `executeMultiple(schema)`: its
catalog and its connection `foreign_keys` value (settable by a whitelisted
`PRAGMA foreign_keys` statement in the schema script). -/
structure Pristine where
  file : DBFile
  fk : Nat
deriving DecidableEq, Repr

/-- The pristine database when schema execution is skipped (empty or
whitespace-only script): a fresh in-memory database. -/
def emptyPristine : Pristine := ⟨⟨[], [], [], [], 0⟩, 0⟩

/-- Membership of a table name in a catalog (`Map.has`). -/
def hasTbl (l : List TableEntry) (n : String) : Bool :=
  l.any (fun e => e.name == n)

/-- Lookup of a table sql, with the source default: `tables.get(name) ?? ""`
becomes the empty string when absent. -/
def tblSql (l : List TableEntry) (n : String) : String :=
  match l.find? (fun e => e.name == n) with
  | some e => e.sql
  | none => ""

/-- Column names of a table (`PRAGMA table_info`), empty when absent. -/
def colsOfT (l : List TableEntry) (n : String) : List String :=
  match l.find? (fun e => e.name == n) with
  | some e => e.cols
  | none => []

/-- Membership of an object name (`Map.has`). -/
def hasObj (l : List ObjEntry) (n : String) : Bool :=
  l.any (fun e => e.name == n)

/-- Lookup of an object sql (`Map.get`). -/
def objSql (l : List ObjEntry) (n : String) : Option String :=
  (l.find? (fun e => e.name == n)).map (fun e => e.sql)

/-! ## The whole-word rename of `recreateTable` (migrator.ts lines 402 to 405)

The source builds the create statement of the replacement table by the
global case-insensitive replacement of the escaped table name between word
boundaries with `name_migration_new`. -/

/-- Word-character test on an optional character; ends of the string count
as non-word, following the regex `\b`. -/
def isWordO : Option Char → Bool
  | some c => isWordChar c
  | none => false

/-- A word boundary sits between two (optional) characters when exactly one
side is a word character. -/
def boundary (a b : Option Char) : Bool := isWordO a != isWordO b

/-- Match of the whole-word pattern at one position: boundary before,
case-insensitive occurrence of the target, boundary after. -/
def wholeWordAt (tgt : List Char) (prev : Option Char) (cs : List Char) : Bool :=
  boundary prev cs.head? && ciHeadMatch tgt cs &&
  boundary ((cs.take tgt.length).getLast?) (cs.drop tgt.length).head?

/-- Scanner of the global whole-word replacement; after a match the scan
resumes past the matched segment, remembering its last source character
for the next boundary test. -/
def replWordF (tgt repl : List Char) : Nat → Option Char → List Char → List Char
  | 0, _, l => l
  | _ + 1, _, [] => []
  | f + 1, prev, c :: rest =>
    if 0 < tgt.length ∧ wholeWordAt tgt prev (c :: rest) then
      repl ++ replWordF tgt repl f ((c :: rest).take tgt.length).getLast?
        ((c :: rest).drop tgt.length)
    else c :: replWordF tgt repl f (some c) rest

/-- The case-insensitive whole-word global replacement used to derive the
create statement of `tblName_migration_new` (the lower-cased target plays
the role of the `i` flag; `escapeRegex` makes the target literal, and the
replacement text is inserted verbatim). -/
def replaceWholeWordCI (target repl s : String) : String :=
  String.mk (replWordF (target.data.map lowerAscii) repl.data (s.data.length + 1) none s.data)

/-! ## Statements executed against the live connection

Every call of `txExecute`, `logExecute`, `this.db.execute` and the
transaction lifecycle operations is recorded as one trace entry, typed by
its call site.  `create` statements carry the data the external engine
derives from the executed sql text (stored text, `tbl_name`, columns),
which the migrator knows at each call site from the pristine catalog. -/

/-- The four `sqlite_master` kinds. -/
inductive SKind where
  | table
  | index
  | trigger
  | view
deriving DecidableEq, Repr

/-- One executed statement. -/
inductive Stmt where
  | beginTx
  | readFk
  | setFk (v : Nat)
  | setDeferFk
  | readMaster (k : SKind)
  | readTableInfo (tbl : String)
  | readDeps (tbl : String)
  | dropView (n : String)
  | dropIndex (n : String)
  | dropTrigger (n : String)
  | dropTable (n : String)
  | createTable (n : String) (sql : String) (cols : List String)
  | createObj (k : SKind) (e : ObjEntry)
  | createRenamed (orig newName sql : String) (cols : List String)
  | copyData (toTbl fromTbl : String) (cols : List String)
  | renameTable (oldName newName : String)
  | readUserVersion
  | setUserVersion (v : Int)
  | fkCheck
  | commitTx
  | rollbackTx
  | vacuum
deriving DecidableEq, Repr

/-- External engine behaviour supplied to the model: how `ALTER TABLE
RENAME` rewrites the stored create statement, whether
`PRAGMA foreign_key_check` returns any row against a given catalog state
(row data is abstracted), and which executed statements fail with an
underlying database error (indexed by the position in the trace; applied
to statements run inside the try block of `migrate`). -/
structure Engine where
  rewriteRename : String → String → String → String
  fkCheckRows : DBFile → Bool
  failsAt : Nat → Bool

/-- A migration configuration: the pristine image, the deletion flag and
the external engine. -/
structure MigCfg where
  pristine : Pristine
  allowDeletions : Bool
  engine : Engine

/-- Machine state of one migration run: the committed file, the
transaction working image, whether the write transaction is open, the
connection pragmas, the change counter and the statement trace. -/
structure St where
  file : DBFile
  tx : DBFile
  txOpen : Bool
  connFk : Nat
  deferFk : Bool
  nChanges : Nat
  trace : List Stmt
deriving DecidableEq, Repr

/-- The catalog a statement executed on the live connection observes and
mutates: the transaction image while the transaction is open, the
committed file otherwise. -/
def live (st : St) : DBFile :=
  if st.txOpen then st.tx else st.file

/-- Catalog effect of one statement, per documented SQLite behaviour:
drops remove rows (`DROP TABLE` also removes the indices and triggers of
the table), creates append the row carried by the statement, renaming a
table renames its row (rewriting the stored sql through the engine) and
updates `tbl_name` references, setting `user_version` stores it.  Reads,
pragma statements, data copies, commit markers and `VACUUM` leave the
catalog unchanged. -/
def applyCat (eng : Engine) (f : DBFile) : Stmt → DBFile
  | .dropView n => { f with views := f.views.filter (fun e => e.name ≠ n) }
  | .dropIndex n => { f with indices := f.indices.filter (fun e => e.name ≠ n) }
  | .dropTrigger n => { f with triggers := f.triggers.filter (fun e => e.name ≠ n) }
  | .dropTable n =>
      { f with tables := f.tables.filter (fun e => e.name ≠ n),
               indices := f.indices.filter (fun e => e.tbl ≠ n),
               triggers := f.triggers.filter (fun e => e.tbl ≠ n) }
  | .createTable n sql cols => { f with tables := f.tables ++ [⟨n, sql, cols⟩] }
  | .createRenamed _ nn sql cols => { f with tables := f.tables ++ [⟨nn, sql, cols⟩] }
  | .createObj k e =>
      match k with
      | .index => { f with indices := f.indices ++ [e] }
      | .trigger => { f with triggers := f.triggers ++ [e] }
      | .view => { f with views := f.views ++ [e] }
      | .table => f
  | .renameTable o n =>
      { f with
        tables := f.tables.map (fun e =>
          if e.name = o then { e with name := n, sql := eng.rewriteRename o n e.sql } else e),
        indices := f.indices.map (fun e => if e.tbl = o then { e with tbl := n } else e),
        triggers := f.triggers.map (fun e => if e.tbl = o then { e with tbl := n } else e) }
  | .setUserVersion v => { f with userVersion := v }
  | _ => f

/-- Full effect of executing one statement: record it in the trace, apply
transaction lifecycle and connection-pragma effects, and route catalog
effects to the transaction image or the committed file.  Commit publishes
the transaction image; commit and rollback clear `defer_foreign_keys`
(it auto-resets at transaction end). -/
def applyStmt (eng : Engine) (st : St) (stm : Stmt) : St :=
  let st1 := { st with trace := st.trace ++ [stm] }
  match stm with
  | .beginTx => { st1 with txOpen := true, tx := st.file }
  | .commitTx => { st1 with file := st.tx, txOpen := false, deferFk := false }
  | .rollbackTx => { st1 with txOpen := false, deferFk := false }
  | .setFk v => { st1 with connFk := v }
  | .setDeferFk => { st1 with deferFk := true }
  | s =>
    if st.txOpen then { st1 with tx := applyCat eng st.tx s }
    else { st1 with file := applyCat eng st.file s }

/-- Result of a fallible step: the new state, or the error together with
the state at the moment of the throw. -/
abbrev PR := Except (MigErr × St) St

/-- `logExecute` (migrator.ts lines 553 to 578): execute one statement and
count it in the change counter; an injected engine failure throws before
any effect. -/
def logExec (cfg : MigCfg) (st : St) (stm : Stmt) : PR :=
  if cfg.engine.failsAt st.trace.length then .error (.execFailure, st)
  else
    let st2 := applyStmt cfg.engine st stm
    .ok { st2 with nChanges := st2.nChanges + 1 }

/-- `txExecute` and uncounted reads: execute one statement without
touching the change counter. -/
def readExec (cfg : MigCfg) (st : St) (stm : Stmt) : PR :=
  if cfg.engine.failsAt st.trace.length then .error (.execFailure, st)
  else .ok (applyStmt cfg.engine st stm)

/-- Sequential counted execution of a statement list (the source loops
that call `logExecute` once per element). -/
def logExecAll (cfg : MigCfg) : List Stmt → St → PR
  | [], st => .ok st
  | s :: rest, st =>
    match logExec cfg st s with
    | .ok st2 => logExecAll cfg rest st2
    | .error e => .error e

/-! ## The planner sets (`performMigration`, migrator.ts lines 246 to 264) -/

/-- `difference(pristineTables, tables)` in pristine row order: the tables
to create. -/
def newTableList (p : DBFile) (tables : List TableEntry) : List TableEntry :=
  p.tables.filter (fun e => !hasTbl tables e.name)

/-- `difference(tables, pristineTables)` in live row order: the tables
whose deletion is requested. -/
def removedTableNames (p : DBFile) (tables : List TableEntry) : List String :=
  (tables.filter (fun e => !hasTbl p.tables e.name)).map (fun e => e.name)

/-- The modified set (lines 257 to 264): pristine tables whose live
counterpart has non-empty normalized sql differing from the normalized
pristine sql, in pristine row order. -/
def modifiedTableNames (p : DBFile) (tables : List TableEntry) : List String :=
  (p.tables.filter (fun e =>
    let base := normaliseSql (tblSql tables e.name)
    base ≠ "" ∧ base ≠ normaliseSql e.sql)).map (fun e => e.name)

/-! ## Phases of `performMigration` -/

/-- Lines 238 to 244: drop every live view, unconditionally, before any
table work. -/
def dropViewsPhase (cfg : MigCfg) (st : St) : PR :=
  logExecAll cfg ((live st).views.map (fun v => Stmt.dropView v.name)) st

/-- The trigger dependencies of a table on one side
(`fetchTableDependencies` restricted to the kind the caller uses for
drops): `tbl_name` matches and `sql` is non-empty. -/
def depTriggers (f : DBFile) (tbl : String) : List ObjEntry :=
  f.triggers.filter (fun e => e.tbl == tbl && e.sql ≠ "")

/-- The index dependencies of a table with non-empty sql (auto-created
indices carry NULL sql and are skipped). -/
def depIndices (f : DBFile) (tbl : String) : List ObjEntry :=
  f.indices.filter (fun e => e.tbl == tbl && e.sql ≠ "")

/-- `recreateTable` (migrator.ts lines 370 to 468): snapshot dependencies,
drop the table's live triggers, create the `_migration_new` table from the
rewritten pristine sql, read the column sets, enforce the column deletion
guard, copy the common columns, drop the old table, rename the new one
over it, and recreate the pristine index and trigger dependencies. -/
def recreateTable (cfg : MigCfg) (tblName pristineSql : String) (st : St) : PR := do
  let st ← readExec cfg st (.readDeps tblName)
  let curTrgs := depTriggers (live st) tblName
  let st ← logExecAll cfg (curTrgs.map (fun e => Stmt.dropTrigger e.name)) st
  let newName := tblName ++ "_migration_new"
  let createSql := replaceWholeWordCI tblName newName pristineSql
  let pcols := colsOfT cfg.pristine.file.tables tblName
  let st ← logExec cfg st (.createRenamed tblName newName createSql pcols)
  let st ← readExec cfg st (.readTableInfo tblName)
  let cols := colsOfT (live st).tables tblName
  let removed := cols.filter (fun c => !pcols.contains c)
  if removed ≠ [] ∧ ¬ cfg.allowDeletions then
    .error (.refuseRemoveColumns removed tblName, st)
  else do
    let common := cols.filter (fun c => pcols.contains c)
    let st ← logExec cfg st (.copyData newName tblName common)
    let st ← logExec cfg st (.dropTable tblName)
    let st ← logExec cfg st (.renameTable newName tblName)
    let st ← logExecAll cfg
      ((depIndices cfg.pristine.file tblName).map (fun e => Stmt.createObj .index e) ++
       (depTriggers cfg.pristine.file tblName).map (fun e => Stmt.createObj .trigger e)) st
    pure st

/-- The rebuild loop (lines 280 to 285): each modified table with a
non-empty pristine sql is recreated. -/
def recreateAll (cfg : MigCfg) : List String → St → PR
  | [], st => .ok st
  | t :: rest, st =>
    let sql := tblSql cfg.pristine.file.tables t
    if sql ≠ "" then
      match recreateTable cfg t sql st with
      | .ok st2 => recreateAll cfg rest st2
      | .error e => .error e
    else recreateAll cfg rest st

/-- Lines 246 to 285: compute the planner sets from the live table
catalog, enforce the table deletion guard, create the new tables (those
with non-empty pristine sql), drop the removed ones, and rebuild the
modified ones. -/
def tablesPhase (cfg : MigCfg) (st : St) : PR :=
  let tables := (live st).tables
  let removed := removedTableNames cfg.pristine.file tables
  if removed ≠ [] ∧ ¬ cfg.allowDeletions then
    .error (.refuseDeleteTables removed, st)
  else do
    let st ← logExecAll cfg
      (((newTableList cfg.pristine.file tables).filter (fun e => e.sql ≠ "")).map
        (fun e => Stmt.createTable e.name e.sql e.cols)) st
    let st ← logExecAll cfg (removed.map Stmt.dropTable) st
    recreateAll cfg (modifiedTableNames cfg.pristine.file tables) st

/-- The drop statement of a reconciliation kind. -/
def dropStmtOf (k : SKind) (n : String) : Stmt :=
  match k with
  | .index => .dropIndex n
  | .trigger => .dropTrigger n
  | .view => .dropView n
  | .table => .dropTable n

/-- The create-or-replace loop of a reconciliation phase (for example
lines 294 to 307 for indices): each pristine object absent from the live
snapshot is created; each present one whose live raw sql differs from the
pristine raw sql is dropped and recreated. -/
def reconcileCreate (cfg : MigCfg) (k : SKind) :
    List ObjEntry → List ObjEntry → St → PR
  | [], _, st => .ok st
  | e :: rest, cur, st =>
    if !hasObj cur e.name then
      match logExec cfg st (.createObj k e) with
      | .ok st2 => reconcileCreate cfg k rest cur st2
      | .error err => .error err
    else if objSql cur e.name ≠ some e.sql then
      match logExec cfg st (dropStmtOf k e.name) with
      | .ok st2 =>
        match logExec cfg st2 (.createObj k e) with
        | .ok st3 => reconcileCreate cfg k rest cur st3
        | .error err => .error err
      | .error err => .error err
    else reconcileCreate cfg k rest cur st

/-- One reconciliation phase over a kind (indices lines 287 to 307,
triggers lines 310 to 330, views lines 333 to 353): drop the live objects
absent from pristine, then create or replace from the pristine catalog,
comparing raw sql texts against the snapshot taken at phase entry. -/
def reconcileObjs (cfg : MigCfg) (k : SKind) (pObjs cur : List ObjEntry) (st : St) : PR := do
  let st ← logExecAll cfg
    ((cur.filter (fun e => !hasObj pObjs e.name)).map (fun e => dropStmtOf k e.name)) st
  reconcileCreate cfg k pObjs cur st

/-- The pragma whitelist test of `validatePragma` (lines 626 to 632). -/
def validatePragmaOk (p : String) : Bool := safePragmaNames.contains p

/-- `migratePragma("user_version")` (line 355, helper lines 470 to 485):
validate the name, read both values, and set the live one to the pristine
one when they differ (the pristine read is on the pristine connection and
is not traced). -/
def uvPhase (cfg : MigCfg) (st : St) : PR :=
  if ¬ validatePragmaOk "user_version" then .error (.unsafePragma "user_version", st)
  else do
    let st ← readExec cfg st .readUserVersion
    if (live st).userVersion ≠ cfg.pristine.file.userVersion then
      logExec cfg st (.setUserVersion cfg.pristine.file.userVersion)
    else pure st

/-- Lines 357 to 367: when the pristine `foreign_keys` pragma is on, run
`PRAGMA foreign_key_check` inside the transaction and fail with the
foreign-key violation error when it returns any row. -/
def fkPhase (cfg : MigCfg) (st : St) : PR :=
  if cfg.pristine.fk ≠ 0 then do
    let st ← readExec cfg st .fkCheck
    if cfg.engine.fkCheckRows (live st) then .error (.fkViolation, st)
    else pure st
  else pure st

/-- Lines 228 to 355 of `performMigration`: everything before the final
foreign-key check.  The four pristine catalog fetches run on the pristine
connection and are not traced; each live fetch is traced at its source
position. -/
def pmPrefix (cfg : MigCfg) (st : St) : PR := do
  let st ← readExec cfg st (.readMaster .table)
  let st ← readExec cfg st (.readMaster .view)
  let st ← dropViewsPhase cfg st
  let st ← tablesPhase cfg st
  let st ← readExec cfg st (.readMaster .index)
  let st ← reconcileObjs cfg .index cfg.pristine.file.indices (live st).indices st
  let st ← readExec cfg st (.readMaster .trigger)
  let st ← reconcileObjs cfg .trigger cfg.pristine.file.triggers (live st).triggers st
  let st ← readExec cfg st (.readMaster .view)
  let st ← reconcileObjs cfg .view cfg.pristine.file.views (live st).views st
  uvPhase cfg st

/-- `performMigration` (lines 228 to 368): the phase sequence followed by
the gated foreign-key check. -/
def performMigration (cfg : MigCfg) (st : St) : PR := do
  let st ← pmPrefix cfg st
  fkPhase cfg st

/-! ## The orchestrator (`Migrator.migrate`, lines 128 to 226) -/

/-- `begin` (lines 183 to 195): open the write transaction, read the
original `foreign_keys` value, disable it when it was on (that single
statement is counted and the counter is then reset to zero), and set
`defer_foreign_keys`.  These statements run before the try block, so the
failure oracle does not apply to them. -/
def beginPhase (eng : Engine) (st : St) : St × Nat :=
  let st := applyStmt eng st .beginTx
  let st := applyStmt eng st .readFk
  let orig := st.connFk
  let st :=
    if orig ≠ 0 then
      let st := applyStmt eng st (.setFk 0)
      { st with nChanges := 0 }
    else st
  let st := applyStmt eng st .setDeferFk
  (st, orig)

/-- `onError` (lines 205 to 215): after rollback, re-enable
`foreign_keys` when it was originally on (counted). -/
def onErrorPhase (eng : Engine) (orig : Nat) (st : St) : St :=
  if orig ≠ 0 then
    let st2 := applyStmt eng st (.setFk 1)
    { st2 with nChanges := st2.nChanges + 1 }
  else st

/-- `afterCommit` (lines 217 to 226): reconcile the `foreign_keys` pragma
with the pristine value (`migratePragma("foreign_keys")`, counted when it
executes), rewind the counter when the new value equals the original one,
and `VACUUM` when the counter is positive. -/
def afterCommitPhase (cfg : MigCfg) (orig : Nat) (st : St) : St :=
  let old := st.nChanges
  let st := applyStmt cfg.engine st .readFk
  let cur := st.connFk
  let pv := cfg.pristine.fk
  let st :=
    if cur ≠ pv then
      let st2 := applyStmt cfg.engine st (.setFk pv)
      { st2 with nChanges := st2.nChanges + 1 }
    else st
  let st := if pv = orig then { st with nChanges := old } else st
  if st.nChanges ≠ 0 then applyStmt cfg.engine st .vacuum else st

deriving instance DecidableEq for Except

/-- Result of a full migration run: the value `migrate` returns (or the
error it throws) and the final machine state. -/
structure RunResult where
  outcome : Except MigErr Bool
  st : St
deriving DecidableEq, Repr

/-- `migrate` (wrapper lines 66 to 74 and method lines 128 to 149) from a
validated pristine: begin, try `performMigration` and commit, on success
run `afterCommit` and return whether the change counter is positive, on
any error roll back, restore foreign keys, and propagate the error. -/
def migrateModel (cfg : MigCfg) (file0 : DBFile) (connFk0 : Nat) : RunResult :=
  let st0 : St := ⟨file0, file0, false, connFk0, false, 0, []⟩
  let p := beginPhase cfg.engine st0
  let orig := p.2
  let tryRun : PR := do
    let st ← performMigration cfg p.1
    readExec cfg st .commitTx
  match tryRun with
  | .ok st2 =>
    let st3 := afterCommitPhase cfg orig st2
    ⟨.ok (decide (0 < st3.nChanges)), st3⟩
  | .error (e, stE) =>
    let stR := applyStmt cfg.engine stE .rollbackTx
    let stR := onErrorPhase cfg.engine orig stR
    ⟨.error e, stR⟩

/-- `ensurePristine` (lines 151 to 181): skip everything for an
empty/whitespace schema, scan the three dangerous patterns in order, then
materialize the schema on the pristine connection (`executeMultiple`,
whose external outcome is a parameter), wrapping its error. -/
def ensurePristine (schema : String) (execOutcome : Except String Pristine) :
    Except MigErr Pristine :=
  if (jsTrim schema.data).isEmpty then .ok emptyPristine
  else if scanAttach schema then .error (.invalidSchema "ATTACH DATABASE")
  else if scanDetach schema then .error (.invalidSchema "DETACH DATABASE")
  else if scanUnsafePragma schema then .error (.invalidSchema "unsafe PRAGMA")
  else
    match execOutcome with
    | .ok p => .ok p
    | .error m => .error (.invalidSchema ("Invalid schema SQL: " ++ m))

/-- The full entry point including schema validation: a validation error
propagates before the transaction is begun (empty state), otherwise the
run proceeds from the validated pristine. -/
def migrateFull (schema : String) (execOutcome : Except String Pristine)
    (allowDeletions : Bool) (eng : Engine) (file0 : DBFile) (connFk0 : Nat) : RunResult :=
  match ensurePristine schema execOutcome with
  | .error e => ⟨.error e, ⟨file0, file0, false, connFk0, false, 0, []⟩⟩
  | .ok p => migrateModel ⟨p, allowDeletions, eng⟩ file0 connFk0

/-! ## Run analysis: trace and state preservation

`performMigration` executes only mid-transaction statements: no
transaction lifecycle markers and no pragma toggles.  The predicate
`PresP` records, between two states, that the committed file, the
transaction flag and the connection pragmas are unchanged, that the trace
grew by statements satisfying a parameter predicate, and how the view
catalog of the transaction image evolved along those statements. -/

/-- Statements `performMigration` may execute: everything except the
transaction lifecycle markers and the two pragma toggles. -/
def isMidStmt : Stmt → Bool
  | .beginTx => false
  | .commitTx => false
  | .rollbackTx => false
  | .setFk _ => false
  | .setDeferFk => false
  | _ => true

/-- Mid-transaction statements other than the foreign-key check. -/
def preFkStmt (s : Stmt) : Bool :=
  isMidStmt s && !(s = Stmt.fkCheck)

/-- Effect of one statement on the view catalog of the image it executes
against (the view projection of `applyCat`). -/
def viewStep (vs : List ObjEntry) : Stmt → List ObjEntry
  | .dropView n => vs.filter (fun e => e.name ≠ n)
  | .createObj .view e => vs ++ [e]
  | _ => vs

/-- Effect of a statement list on the view catalog. -/
def viewsAfter (vs : List ObjEntry) (l : List Stmt) : List ObjEntry :=
  l.foldl viewStep vs

/-- Statements that do not touch the table catalog of the image they
execute against. -/
def tableInert : Stmt → Bool
  | .dropTable _ => false
  | .createTable _ _ _ => false
  | .createRenamed _ _ _ _ => false
  | .renameTable _ _ => false
  | _ => true

/-- Preservation between two states across mid-transaction execution:
file, transaction flag and connection pragmas unchanged; the trace grew
by statements satisfying `P`; the transaction image's views evolved by
exactly those statements. -/
def PresP (P : Stmt → Bool) (a b : St) : Prop :=
  b.file = a.file ∧ b.txOpen = a.txOpen ∧ b.connFk = a.connFk ∧ b.deferFk = a.deferFk ∧
  ∃ δ, b.trace = a.trace ++ δ ∧ (∀ s ∈ δ, P s = true) ∧
    b.tx.views = viewsAfter a.tx.views δ ∧
    ((∀ s ∈ δ, tableInert s = true) → b.tx.tables = a.tx.tables)

/-- Preservation of a fallible step result: the reached state (also the
one carried by an error) is preserved, and a thrown error satisfies
`E`. -/
def POk (P : Stmt → Bool) (E : MigErr → Prop) (a : St) : PR → Prop
  | .ok b => PresP P a b
  | .error (e, b) => PresP P a b ∧ E e

theorem viewsAfter_append (vs : List ObjEntry) (l1 l2 : List Stmt) :
    viewsAfter vs (l1 ++ l2) = viewsAfter (viewsAfter vs l1) l2 := by
  simp [viewsAfter, List.foldl_append]

theorem presP_refl (P : Stmt → Bool) (a : St) : PresP P a a :=
  ⟨rfl, rfl, rfl, rfl, [], by simp, by simp, by simp [viewsAfter], fun _ => rfl⟩

theorem presP_trans {P : Stmt → Bool} {a b c : St}
    (h1 : PresP P a b) (h2 : PresP P b c) : PresP P a c := by
  obtain ⟨hf1, ht1, hc1, hd1, δ1, htr1, hp1, hv1, hta1⟩ := h1
  obtain ⟨hf2, ht2, hc2, hd2, δ2, htr2, hp2, hv2, hta2⟩ := h2
  refine ⟨hf2.trans hf1, ht2.trans ht1, hc2.trans hc1, hd2.trans hd1,
    δ1 ++ δ2, ?_, ?_, ?_, ?_⟩
  · rw [htr2, htr1, List.append_assoc]
  · intro s hs
    rcases List.mem_append.mp hs with h | h
    · exact hp1 s h
    · exact hp2 s h
  · rw [hv2, hv1, viewsAfter_append]
  · intro hin
    have h1t := hta1 (fun s hs => hin s (List.mem_append.mpr (Or.inl hs)))
    have h2t := hta2 (fun s hs => hin s (List.mem_append.mpr (Or.inr hs)))
    exact h2t.trans h1t

/-- Weakening of the trace predicate. -/
theorem presP_mono {P Q : Stmt → Bool} {a b : St}
    (hPQ : ∀ s, P s = true → Q s = true) (h : PresP P a b) : PresP Q a b := by
  obtain ⟨hf, ht, hc, hd, δ, htr, hp, hv, hta⟩ := h
  exact ⟨hf, ht, hc, hd, δ, htr, fun s hs => hPQ s (hp s hs), hv, hta⟩

theorem applyStmt_mid_fields (eng : Engine) (a : St) (s : Stmt)
    (hTx : a.txOpen = true) (hMid : isMidStmt s = true) :
    (applyStmt eng a s).file = a.file ∧ (applyStmt eng a s).txOpen = a.txOpen ∧
    (applyStmt eng a s).connFk = a.connFk ∧ (applyStmt eng a s).deferFk = a.deferFk ∧
    (applyStmt eng a s).trace = a.trace ++ [s] ∧
    (applyStmt eng a s).tx.views = viewStep a.tx.views s ∧
    (tableInert s = true → (applyStmt eng a s).tx.tables = a.tx.tables) := by
  cases s <;> simp [isMidStmt] at hMid <;>
    try simp_all [applyStmt, applyCat, viewStep, tableInert]
  case createObj k e =>
    cases k <;> simp_all [applyStmt, applyCat, viewStep, tableInert]

theorem applyStmt_presP {P : Stmt → Bool} (eng : Engine) (a : St) (s : Stmt)
    (hTx : a.txOpen = true) (hMid : isMidStmt s = true) (hP : P s = true) :
    PresP P a (applyStmt eng a s) := by
  have h := applyStmt_mid_fields eng a s hTx hMid
  refine ⟨h.1, h.2.1, h.2.2.1, h.2.2.2.1, [s], h.2.2.2.2.1,
    by simp [hP], by rw [h.2.2.2.2.2.1]; simp [viewsAfter], ?_⟩
  intro hin
  exact h.2.2.2.2.2.2 (hin s (by simp))

theorem logExec_pok {P : Stmt → Bool} {E : MigErr → Prop}
    (cfg : MigCfg) (a : St) (s : Stmt)
    (hTx : a.txOpen = true) (hMid : isMidStmt s = true) (hP : P s = true)
    (hE : E MigErr.execFailure) :
    POk P E a (logExec cfg a s) := by
  unfold logExec
  by_cases hf : cfg.engine.failsAt a.trace.length
  · simp [hf, POk]
    exact ⟨presP_refl P a, hE⟩
  · simp [hf, POk]
    exact applyStmt_presP (P := P) cfg.engine a s hTx hMid hP

theorem readExec_pok {P : Stmt → Bool} {E : MigErr → Prop}
    (cfg : MigCfg) (a : St) (s : Stmt)
    (hTx : a.txOpen = true) (hMid : isMidStmt s = true) (hP : P s = true)
    (hE : E MigErr.execFailure) :
    POk P E a (readExec cfg a s) := by
  unfold readExec
  by_cases hf : cfg.engine.failsAt a.trace.length
  · simp [hf, POk]
    exact ⟨presP_refl P a, hE⟩
  · simp [hf, POk]
    exact applyStmt_presP cfg.engine a s hTx hMid hP

theorem logExecAll_pok {P : Stmt → Bool} {E : MigErr → Prop}
    (cfg : MigCfg) (l : List Stmt)
    (hl : ∀ s ∈ l, isMidStmt s = true ∧ P s = true)
    (hE : E MigErr.execFailure) :
    ∀ a : St, a.txOpen = true → POk P E a (logExecAll cfg l a) := by
  induction l with
  | nil => intro a hTx; exact presP_refl P a
  | cons s rest ih =>
    intro a hTx
    have hs := hl s (by simp)
    have hstep := logExec_pok (E := E) cfg a s hTx hs.1 hs.2 hE
    unfold logExecAll
    cases hres : logExec cfg a s with
    | error e =>
      rw [hres] at hstep
      exact hstep
    | ok b =>
      rw [hres] at hstep
      dsimp only
      have hbTx : b.txOpen = true := by
        have := hstep.2.1
        rw [this, hTx]
      have htail := ih (fun s hs2 => hl s (by simp [hs2])) b hbTx
      cases hres2 : logExecAll cfg rest b with
      | error e =>
        rw [hres2] at htail
        exact ⟨presP_trans hstep htail.1, htail.2⟩
      | ok c =>
        rw [hres2] at htail
        exact presP_trans hstep htail

/-- Composition of preserved fallible steps. -/
theorem pok_bind {P : Stmt → Bool} {E : MigErr → Prop}
    {a : St} {fa : PR} {g : St → PR}
    (hf : POk P E a fa)
    (hg : ∀ b : St, b.txOpen = a.txOpen → POk P E b (g b)) :
    POk P E a (fa >>= g) := by
  cases fa with
  | error e =>
    simp only [bind, Except.bind]
    exact hf
  | ok b =>
    simp only [bind, Except.bind]
    have hb : PresP P a b := hf
    have hgb := hg b hb.2.1
    cases hres : g b with
    | error ec =>
      rw [hres] at hgb
      exact ⟨presP_trans hb hgb.1, hgb.2⟩
    | ok c =>
      rw [hres] at hgb
      exact presP_trans hb hgb

/-- The trace predicates of interest hold of every mid-transaction
statement other than the foreign-key check; all statements
`performMigration` emits before `fkPhase` are of that form. -/
def midNotFk (P : Stmt → Bool) : Prop :=
  ∀ s, isMidStmt s = true → s ≠ Stmt.fkCheck → P s = true

/-- The statement shapes a table rebuild may emit, as hypotheses on a
trace predicate. -/
structure RecreateHyps (P : Stmt → Bool) : Prop where
  readDeps : ∀ t, P (Stmt.readDeps t) = true
  dropTrigger : ∀ n, P (Stmt.dropTrigger n) = true
  createRenamed : ∀ o n sq cl, P (Stmt.createRenamed o n sq cl) = true
  readTableInfo : ∀ t, P (Stmt.readTableInfo t) = true
  copyData : ∀ a b cl, P (Stmt.copyData a b cl) = true
  dropTable : ∀ n, P (Stmt.dropTable n) = true
  renameTable : ∀ o n, P (Stmt.renameTable o n) = true
  createIdx : ∀ e, P (Stmt.createObj SKind.index e) = true
  createTrg : ∀ e, P (Stmt.createObj SKind.trigger e) = true

theorem mkRecreateHyps {P : Stmt → Bool} (hP : midNotFk P) : RecreateHyps P :=
  ⟨fun _ => hP _ rfl (by simp), fun _ => hP _ rfl (by simp),
   fun _ _ _ _ => hP _ rfl (by simp), fun _ => hP _ rfl (by simp),
   fun _ _ _ => hP _ rfl (by simp), fun _ => hP _ rfl (by simp),
   fun _ _ => hP _ rfl (by simp), fun _ => hP _ rfl (by simp),
   fun _ => hP _ rfl (by simp)⟩

theorem dropViewsPhase_pok {P : Stmt → Bool} {E : MigErr → Prop}
    (cfg : MigCfg) (st : St) (hTx : st.txOpen = true)
    (hP : ∀ n, P (Stmt.dropView n) = true) (hE : E MigErr.execFailure) :
    POk P E st (dropViewsPhase cfg st) := by
  unfold dropViewsPhase
  refine logExecAll_pok cfg _ ?_ hE st hTx
  intro s hs
  simp [List.mem_map] at hs
  obtain ⟨v, hv, rfl⟩ := hs
  exact ⟨rfl, hP _⟩

theorem recreateTable_pok {P : Stmt → Bool} {E : MigErr → Prop}
    (cfg : MigCfg) (t sql : String) (st : St) (hTx : st.txOpen = true)
    (hP : RecreateHyps P) (hE : E MigErr.execFailure)
    (hC : ∀ cols tb, E (MigErr.refuseRemoveColumns cols tb)) :
    POk P E st (recreateTable cfg t sql st) := by
  unfold recreateTable
  refine pok_bind (readExec_pok cfg st _ hTx rfl (hP.readDeps _) hE) ?_
  intro b hb
  rw [hTx] at hb
  dsimp only
  refine pok_bind ?_ ?_
  · refine logExecAll_pok cfg _ ?_ hE b hb
    intro s hs
    simp [List.mem_map] at hs
    obtain ⟨e, he, rfl⟩ := hs
    exact ⟨rfl, hP.dropTrigger _⟩
  · intro c hc
    rw [hb] at hc
    dsimp only
    refine pok_bind (logExec_pok cfg c _ hc rfl (hP.createRenamed _ _ _ _) hE) ?_
    intro d hd
    rw [hc] at hd
    dsimp only
    refine pok_bind (readExec_pok cfg d _ hd rfl (hP.readTableInfo _) hE) ?_
    intro f hf
    rw [hd] at hf
    dsimp only
    by_cases hguard :
        (colsOfT (live f).tables t).filter
          (fun c => !(colsOfT cfg.pristine.file.tables t).contains c) ≠ [] ∧
        ¬ cfg.allowDeletions
    · simp only [if_pos hguard]
      exact ⟨presP_refl P f, hC _ _⟩
    · simp only [if_neg hguard]
      refine pok_bind (logExec_pok cfg f _ hf rfl (hP.copyData _ _ _) hE) ?_
      intro g1 hg1
      rw [hf] at hg1
      dsimp only
      refine pok_bind (logExec_pok cfg g1 _ hg1 rfl (hP.dropTable _) hE) ?_
      intro g2 hg2
      rw [hg1] at hg2
      dsimp only
      refine pok_bind (logExec_pok cfg g2 _ hg2 rfl (hP.renameTable _ _) hE) ?_
      intro g3 hg3
      rw [hg2] at hg3
      dsimp only
      refine pok_bind ?_ ?_
      · refine logExecAll_pok cfg _ ?_ hE g3 hg3
        intro s hs
        simp [List.mem_map] at hs
        rcases hs with ⟨e, he, rfl⟩ | ⟨e, he, rfl⟩
        · exact ⟨rfl, hP.createIdx _⟩
        · exact ⟨rfl, hP.createTrg _⟩
      · intro g4 hg4
        exact presP_refl P g4

theorem recreateAll_pok {P : Stmt → Bool} {E : MigErr → Prop}
    (cfg : MigCfg) (hP : RecreateHyps P) (hE : E MigErr.execFailure)
    (hC : ∀ cols tb, E (MigErr.refuseRemoveColumns cols tb)) :
    ∀ (l : List String) (st : St), st.txOpen = true →
      POk P E st (recreateAll cfg l st) := by
  intro l
  induction l with
  | nil => intro st hTx; exact presP_refl P st
  | cons t rest ih =>
    intro st hTx
    unfold recreateAll
    by_cases hsql : tblSql cfg.pristine.file.tables t ≠ ""
    · simp only [if_pos hsql]
      have hstep := recreateTable_pok cfg t (tblSql cfg.pristine.file.tables t) st hTx hP hE hC
      cases hres : recreateTable cfg t (tblSql cfg.pristine.file.tables t) st with
      | error e =>
        rw [hres] at hstep
        exact hstep
      | ok b =>
        rw [hres] at hstep
        dsimp only
        have hbTx : b.txOpen = true := by rw [hstep.2.1, hTx]
        have htail := ih b hbTx
        cases hres2 : recreateAll cfg rest b with
        | error e =>
          rw [hres2] at htail
          exact ⟨presP_trans hstep htail.1, htail.2⟩
        | ok c =>
          rw [hres2] at htail
          exact presP_trans hstep htail
    · simp only [if_neg hsql]
      exact ih st hTx

theorem tablesPhase_pok {P : Stmt → Bool} {E : MigErr → Prop}
    (cfg : MigCfg) (st : St) (hTx : st.txOpen = true)
    (hP : RecreateHyps P)
    (hPt : ∀ n sq cl, P (Stmt.createTable n sq cl) = true)
    (hE : E MigErr.execFailure)
    (hC : ∀ cols tb, E (MigErr.refuseRemoveColumns cols tb))
    (hD : ∀ ns, E (MigErr.refuseDeleteTables ns)) :
    POk P E st (tablesPhase cfg st) := by
  unfold tablesPhase
  by_cases hguard :
      removedTableNames cfg.pristine.file (live st).tables ≠ [] ∧ ¬ cfg.allowDeletions
  · simp only [if_pos hguard]
    exact ⟨presP_refl P st, hD _⟩
  · simp only [if_neg hguard]
    refine pok_bind ?_ ?_
    · refine logExecAll_pok cfg _ ?_ hE st hTx
      intro s hs
      simp [List.mem_map] at hs
      obtain ⟨e, he, rfl⟩ := hs
      exact ⟨rfl, hPt _ _ _⟩
    · intro b hb
      rw [hTx] at hb
      dsimp only
      refine pok_bind ?_ ?_
      · refine logExecAll_pok cfg _ ?_ hE b hb
        intro s hs
        simp [List.mem_map] at hs
        obtain ⟨n, hn, rfl⟩ := hs
        exact ⟨rfl, hP.dropTable _⟩
      · intro c hc
        rw [hb] at hc
        exact recreateAll_pok cfg hP hE hC _ c hc

theorem reconcileCreate_pok {P : Stmt → Bool} {E : MigErr → Prop}
    (cfg : MigCfg) (k : SKind)
    (hPk : ∀ n, P (dropStmtOf k n) = true)
    (hPck : ∀ e, P (Stmt.createObj k e) = true)
    (hE : E MigErr.execFailure) :
    ∀ (pObjs cur : List ObjEntry) (st : St), st.txOpen = true →
      POk P E st (reconcileCreate cfg k pObjs cur st) := by
  intro pObjs
  induction pObjs with
  | nil => intro cur st hTx; exact presP_refl P st
  | cons e rest ih =>
    intro cur st hTx
    unfold reconcileCreate
    by_cases habsent : !hasObj cur e.name
    · simp only [if_pos habsent]
      have hstep := logExec_pok (E := E) cfg st (Stmt.createObj k e) hTx rfl (hPck e) hE
      cases hres : logExec cfg st (Stmt.createObj k e) with
      | error err =>
        rw [hres] at hstep
        exact hstep
      | ok b =>
        rw [hres] at hstep
        dsimp only
        have hbTx : b.txOpen = true := by rw [hstep.2.1, hTx]
        have htail := ih cur b hbTx
        cases hres2 : reconcileCreate cfg k rest cur b with
        | error err =>
          rw [hres2] at htail
          exact ⟨presP_trans hstep htail.1, htail.2⟩
        | ok c =>
          rw [hres2] at htail
          exact presP_trans hstep htail
    · simp only [if_neg habsent]
      by_cases hdiff : objSql cur e.name ≠ some e.sql
      · simp only [if_pos hdiff]
        have hstep := logExec_pok (E := E) cfg st (dropStmtOf k e.name) hTx
          (by cases k <;> rfl) (hPk e.name) hE
        cases hres : logExec cfg st (dropStmtOf k e.name) with
        | error err =>
          rw [hres] at hstep
          exact hstep
        | ok b =>
          rw [hres] at hstep
          dsimp only
          have hbTx : b.txOpen = true := by rw [hstep.2.1, hTx]
          have hstep2 := logExec_pok (E := E) cfg b (Stmt.createObj k e) hbTx rfl (hPck e) hE
          cases hres2 : logExec cfg b (Stmt.createObj k e) with
          | error err =>
            rw [hres2] at hstep2
            exact ⟨presP_trans hstep hstep2.1, hstep2.2⟩
          | ok c =>
            rw [hres2] at hstep2
            dsimp only
            have hcTx : c.txOpen = true := by rw [hstep2.2.1, hbTx]
            have htail := ih cur c hcTx
            cases hres3 : reconcileCreate cfg k rest cur c with
            | error err =>
              rw [hres3] at htail
              exact ⟨presP_trans (presP_trans hstep hstep2) htail.1, htail.2⟩
            | ok d =>
              rw [hres3] at htail
              exact presP_trans (presP_trans hstep hstep2) htail
      · simp only [if_neg hdiff]
        exact ih cur st hTx

theorem reconcileObjs_pok {P : Stmt → Bool} {E : MigErr → Prop}
    (cfg : MigCfg) (k : SKind) (pObjs cur : List ObjEntry) (st : St)
    (hTx : st.txOpen = true)
    (hPk : ∀ n, P (dropStmtOf k n) = true)
    (hPck : ∀ e, P (Stmt.createObj k e) = true)
    (hE : E MigErr.execFailure) :
    POk P E st (reconcileObjs cfg k pObjs cur st) := by
  unfold reconcileObjs
  refine pok_bind ?_ ?_
  · refine logExecAll_pok cfg _ ?_ hE st hTx
    intro s hs
    simp [List.mem_map] at hs
    obtain ⟨e, he, rfl⟩ := hs
    exact ⟨by cases k <;> rfl, hPk _⟩
  · intro b hb
    rw [hTx] at hb
    exact reconcileCreate_pok cfg k hPk hPck hE pObjs cur b hb

theorem uvPhase_pok {P : Stmt → Bool} {E : MigErr → Prop}
    (cfg : MigCfg) (st : St) (hTx : st.txOpen = true)
    (hPr : P Stmt.readUserVersion = true)
    (hPs : ∀ v, P (Stmt.setUserVersion v) = true)
    (hE : E MigErr.execFailure) :
    POk P E st (uvPhase cfg st) := by
  unfold uvPhase
  have hval : validatePragmaOk "user_version" = true := by decide
  simp only [hval]
  simp only [not_true, if_false, Bool.not_eq_true]
  refine pok_bind (readExec_pok cfg st _ hTx rfl hPr hE) ?_
  intro b hb
  rw [hTx] at hb
  dsimp only
  by_cases hne : (live b).userVersion ≠ cfg.pristine.file.userVersion
  · simp only [if_pos hne]
    exact logExec_pok cfg b _ hb rfl (hPs _) hE
  · simp only [if_neg hne]
    exact presP_refl P b

theorem fkPhase_pok_zero {P : Stmt → Bool} {E : MigErr → Prop}
    (cfg : MigCfg) (st : St) (h0 : cfg.pristine.fk = 0) :
    POk P E st (fkPhase cfg st) := by
  unfold fkPhase
  simp only [h0]
  simp
  exact presP_refl P st

theorem fkPhase_pok {P : Stmt → Bool} {E : MigErr → Prop}
    (cfg : MigCfg) (st : St) (hTx : st.txOpen = true)
    (hPc : P Stmt.fkCheck = true) (hE : E MigErr.execFailure)
    (hV : E MigErr.fkViolation) :
    POk P E st (fkPhase cfg st) := by
  unfold fkPhase
  by_cases h0 : cfg.pristine.fk ≠ 0
  · simp only [if_pos h0]
    refine pok_bind (readExec_pok cfg st _ hTx rfl hPc hE) ?_
    intro b hb
    dsimp only
    by_cases hrows : cfg.engine.fkCheckRows (live b)
    · simp only [if_pos hrows]
      exact ⟨presP_refl P b, hV⟩
    · simp only [if_neg hrows]
      exact presP_refl P b
  · simp only [if_neg h0]
    exact presP_refl P st

theorem pmPrefix_pok {P : Stmt → Bool} {E : MigErr → Prop}
    (cfg : MigCfg) (st : St) (hTx : st.txOpen = true)
    (hP : midNotFk P) (hE : E MigErr.execFailure)
    (hC : ∀ cols tb, E (MigErr.refuseRemoveColumns cols tb))
    (hD : ∀ ns, E (MigErr.refuseDeleteTables ns)) :
    POk P E st (pmPrefix cfg st) := by
  have hR : RecreateHyps P := mkRecreateHyps hP
  have hPd : ∀ k n, P (dropStmtOf k n) = true := by
    intro k n
    cases k <;> exact hP _ rfl (by simp [dropStmtOf])
  have hPc : ∀ k e, P (Stmt.createObj k e) = true := fun k e => hP _ rfl (by simp)
  unfold pmPrefix
  refine pok_bind (readExec_pok cfg st _ hTx rfl (hP _ rfl (by simp)) hE) ?_
  intro a1 h1
  rw [hTx] at h1
  dsimp only
  refine pok_bind (readExec_pok cfg a1 _ h1 rfl (hP _ rfl (by simp)) hE) ?_
  intro a2 h2
  rw [h1] at h2
  dsimp only
  refine pok_bind (dropViewsPhase_pok cfg a2 h2 (fun n => hP _ rfl (by simp)) hE) ?_
  intro a3 h3
  rw [h2] at h3
  dsimp only
  refine pok_bind
    (tablesPhase_pok cfg a3 h3 hR (fun _ _ _ => hP _ rfl (by simp)) hE hC hD) ?_
  intro a4 h4
  rw [h3] at h4
  dsimp only
  refine pok_bind (readExec_pok cfg a4 _ h4 rfl (hP _ rfl (by simp)) hE) ?_
  intro a5 h5
  rw [h4] at h5
  dsimp only
  refine pok_bind (reconcileObjs_pok cfg _ _ _ a5 h5 (hPd _) (hPc _) hE) ?_
  intro a6 h6
  rw [h5] at h6
  dsimp only
  refine pok_bind (readExec_pok cfg a6 _ h6 rfl (hP _ rfl (by simp)) hE) ?_
  intro a7 h7
  rw [h6] at h7
  dsimp only
  refine pok_bind (reconcileObjs_pok cfg _ _ _ a7 h7 (hPd _) (hPc _) hE) ?_
  intro a8 h8
  rw [h7] at h8
  dsimp only
  refine pok_bind (readExec_pok cfg a8 _ h8 rfl (hP _ rfl (by simp)) hE) ?_
  intro a9 h9
  rw [h8] at h9
  dsimp only
  refine pok_bind (reconcileObjs_pok cfg _ _ _ a9 h9 (hPd _) (hPc _) hE) ?_
  intro a10 h10
  rw [h9] at h10
  exact uvPhase_pok cfg a10 h10 (hP _ rfl (by simp)) (fun _ => hP _ rfl (by simp)) hE

/-- Master preservation of `performMigration`: only mid-transaction
statements are executed, the committed file and the connection pragmas
never change, whatever the error. -/
theorem performMigration_pok_mid (cfg : MigCfg) (st : St) (hTx : st.txOpen = true) :
    POk isMidStmt (fun _ => True) st (performMigration cfg st) := by
  unfold performMigration
  refine pok_bind
    (pmPrefix_pok cfg st hTx (fun s hs _ => hs) trivial
      (fun _ _ => trivial) (fun _ => trivial)) ?_
  intro b hb
  rw [hTx] at hb
  exact fkPhase_pok cfg b hb rfl trivial trivial

/-- Preservation of `performMigration` in the absence of a foreign-key
check: when the pristine `foreign_keys` pragma is off, no `fkCheck`
statement is emitted and no foreign-key violation error is thrown. -/
theorem performMigration_pok_nofk (cfg : MigCfg) (st : St)
    (hTx : st.txOpen = true) (h0 : cfg.pristine.fk = 0) :
    POk preFkStmt (fun e => e ≠ MigErr.fkViolation) st (performMigration cfg st) := by
  unfold performMigration
  refine pok_bind
    (pmPrefix_pok cfg st hTx
      (fun s hs hne => by simp [preFkStmt, hs, hne])
      (by simp) (fun _ _ => by simp) (fun _ => by simp)) ?_
  intro b hb
  exact fkPhase_pok_zero cfg b h0

/-! ## Run-level case analysis -/

/-- Every statement appends itself to the trace. -/
theorem applyStmt_trace (eng : Engine) (a : St) (s : Stmt) :
    (applyStmt eng a s).trace = a.trace ++ [s] := by
  cases s <;> simp only [applyStmt] <;> first | rfl | (split <;> rfl)

/-- The state reached by a successful `readExec` step. -/
theorem readExec_ok {cfg : MigCfg} {a b : St} {s : Stmt}
    (h : readExec cfg a s = .ok b) : b = applyStmt cfg.engine a s := by
  unfold readExec at h
  by_cases hf : cfg.engine.failsAt a.trace.length
  · simp [hf] at h
  · simp [hf] at h
    exact h.symm

/-- The state reached by a successful `logExec` step. -/
theorem logExec_ok {cfg : MigCfg} {a b : St} {s : Stmt}
    (h : logExec cfg a s = .ok b) :
    b = { applyStmt cfg.engine a s with
          nChanges := (applyStmt cfg.engine a s).nChanges + 1 } := by
  unfold logExec at h
  by_cases hf : cfg.engine.failsAt a.trace.length
  · simp [hf] at h
  · simp [hf] at h
    exact h.symm

/-- A successful statement-list execution appends exactly its list. -/
theorem logExecAll_ok_trace {cfg : MigCfg} :
    ∀ {l : List Stmt} {a b : St}, logExecAll cfg l a = .ok b →
      b.trace = a.trace ++ l := by
  intro l
  induction l with
  | nil =>
    intro a b h
    simp [logExecAll] at h
    simp [h]
  | cons s rest ih =>
    intro a b h
    unfold logExecAll at h
    cases hres : logExec cfg a s with
    | error e => rw [hres] at h; exact absurd h (by simp)
    | ok m =>
      rw [hres] at h
      dsimp only at h
      have hm := logExec_ok hres
      have htr := ih h
      rw [htr, hm, applyStmt_trace, List.append_assoc]
      rfl

/-- The state after `begin` on a fresh run. -/
def beginTrace (fk0 : Nat) : List Stmt :=
  [Stmt.beginTx, Stmt.readFk] ++ (if fk0 ≠ 0 then [Stmt.setFk 0] else []) ++
  [Stmt.setDeferFk]

/-- The machine state right after `begin`: transaction open over the
initial file, `foreign_keys` off, `defer_foreign_keys` on, counter zero. -/
def stBegin (file0 : DBFile) (fk0 : Nat) : St :=
  ⟨file0, file0, true, 0, true, 0, beginTrace fk0⟩

theorem beginPhase_spec (eng : Engine) (file0 : DBFile) (fk0 : Nat) :
    beginPhase eng ⟨file0, file0, false, fk0, false, 0, []⟩ =
      (stBegin file0 fk0, fk0) := by
  by_cases h : fk0 = 0 <;>
    simp [beginPhase, applyStmt, applyCat, stBegin, beginTrace, h]

/-- Disjunctive normal form of a full run: either the try block succeeds
and the result comes from `afterCommit`, or some step fails and the
result comes from rollback plus `onError`. -/
theorem migrateModel_cases (cfg : MigCfg) (file0 : DBFile) (fk0 : Nat) :
    (∃ st2 st3, performMigration cfg (stBegin file0 fk0) = .ok st2 ∧
      readExec cfg st2 .commitTx = .ok st3 ∧
      migrateModel cfg file0 fk0 =
        ⟨.ok (decide (0 < (afterCommitPhase cfg fk0 st3).nChanges)),
         afterCommitPhase cfg fk0 st3⟩) ∨
    (∃ e stE,
      (performMigration cfg (stBegin file0 fk0) = .error (e, stE) ∨
        (∃ st2, performMigration cfg (stBegin file0 fk0) = .ok st2 ∧
          readExec cfg st2 .commitTx = .error (e, stE))) ∧
      migrateModel cfg file0 fk0 =
        ⟨.error e,
         onErrorPhase cfg.engine fk0 (applyStmt cfg.engine stE .rollbackTx)⟩) := by
  have hb := beginPhase_spec cfg.engine file0 fk0
  cases hpm : performMigration cfg (stBegin file0 fk0) with
  | error p =>
    obtain ⟨e, stE⟩ := p
    right
    refine ⟨e, stE, Or.inl rfl, ?_⟩
    simp only [migrateModel, hb, hpm, bind, Except.bind]
  | ok st2 =>
    cases hc : readExec cfg st2 .commitTx with
    | error p =>
      obtain ⟨e, stE⟩ := p
      right
      refine ⟨e, stE, Or.inr ⟨st2, rfl, hc⟩, ?_⟩
      simp only [migrateModel, hb, hpm, hc, bind, Except.bind]
    | ok st3 =>
      left
      refine ⟨st2, st3, rfl, hc, ?_⟩
      simp only [migrateModel, hb, hpm, hc, bind, Except.bind]

/-- Effect of the rollback marker. -/
theorem applyStmt_rollback (eng : Engine) (a : St) :
    applyStmt eng a .rollbackTx =
      { a with trace := a.trace ++ [Stmt.rollbackTx], txOpen := false,
               deferFk := false } := by
  simp [applyStmt]

/-- Effect of the commit marker. -/
theorem applyStmt_commit (eng : Engine) (a : St) :
    applyStmt eng a .commitTx =
      { a with trace := a.trace ++ [Stmt.commitTx], file := a.tx,
               txOpen := false, deferFk := false } := by
  simp [applyStmt]

/-- `onError` leaves the file alone, appends at most one pragma
statement, and sets the connection pragma to the re-enabled value exactly
when the original value was on. -/
theorem onErrorPhase_spec (eng : Engine) (orig : Nat) (a : St) :
    (onErrorPhase eng orig a).file = a.file ∧
    (onErrorPhase eng orig a).connFk = (if orig ≠ 0 then 1 else a.connFk) ∧
    (onErrorPhase eng orig a).trace =
      a.trace ++ (if orig ≠ 0 then [Stmt.setFk 1] else []) := by
  by_cases h : orig ≠ 0 <;> simp [onErrorPhase, applyStmt, h]

/-- Statements executed outside the transaction by `afterCommit` touch
neither the committed file nor the transaction image. -/
theorem applyStmt_post_step (eng : Engine) (b : St) (s : Stmt)
    (hs : s = Stmt.readFk ∨ (∃ v, s = Stmt.setFk v) ∨ s = Stmt.vacuum) :
    (applyStmt eng b s).file = b.file ∧
    (applyStmt eng b s).trace = b.trace ++ [s] := by
  rcases hs with rfl | ⟨v, rfl⟩ | rfl <;>
    constructor <;> by_cases hb : b.txOpen <;> simp [applyStmt, applyCat, hb]

/-- Preservation across the post-commit statements of `afterCommit`: the
committed file is unchanged and the trace grows only by pragma
reconciliation and `VACUUM` statements. -/
def PostPres (a b : St) : Prop :=
  b.file = a.file ∧ ∃ δ, b.trace = a.trace ++ δ ∧
    ∀ s ∈ δ, s = Stmt.readFk ∨ (∃ v, s = Stmt.setFk v) ∨ s = Stmt.vacuum

theorem postPres_refl (a : St) : PostPres a a := ⟨rfl, [], by simp, by simp⟩

theorem postPres_trans {a b c : St} (h1 : PostPres a b) (h2 : PostPres b c) :
    PostPres a c := by
  obtain ⟨hf1, δ1, ht1, hp1⟩ := h1
  obtain ⟨hf2, δ2, ht2, hp2⟩ := h2
  refine ⟨hf2.trans hf1, δ1 ++ δ2, ?_, ?_⟩
  · rw [ht2, ht1, List.append_assoc]
  · intro s hs
    rcases List.mem_append.mp hs with h | h
    · exact hp1 s h
    · exact hp2 s h

theorem postPres_apply (eng : Engine) (a : St) (s : Stmt)
    (hs : s = Stmt.readFk ∨ (∃ v, s = Stmt.setFk v) ∨ s = Stmt.vacuum) :
    PostPres a (applyStmt eng a s) := by
  have h := applyStmt_post_step eng a s hs
  exact ⟨h.1, [s], h.2, by intro x hx; simp at hx; subst hx; exact hs⟩

theorem postPres_nch {a b : St} (h : PostPres a b) (n : Nat) :
    PostPres a { b with nChanges := n } := ⟨h.1, h.2⟩

theorem postPres_ite_set (eng : Engine) (c : Prop) [Decidable c] {a : St}
    (b : St) (v : Nat) (h : PostPres a b) :
    PostPres a (if c then
      { applyStmt eng b (.setFk v) with
        nChanges := (applyStmt eng b (.setFk v)).nChanges + 1 }
      else b) := by
  split
  · exact postPres_trans h
      (postPres_nch (postPres_apply eng b (.setFk v) (Or.inr (Or.inl ⟨v, rfl⟩))) _)
  · exact h

theorem postPres_ite_nch (c : Prop) [Decidable c] {a : St} (b : St) (n : Nat)
    (h : PostPres a b) :
    PostPres a (if c then { b with nChanges := n } else b) := by
  split
  · exact postPres_nch h n
  · exact h

theorem postPres_vac (eng : Engine) {a : St} (b : St) (h : PostPres a b) :
    PostPres a (if b.nChanges ≠ 0 then applyStmt eng b .vacuum else b) := by
  split
  · exact postPres_trans h (postPres_apply eng b .vacuum (Or.inr (Or.inr rfl)))
  · exact h

/-- `afterCommit` appends only pragma reconciliation and `VACUUM`
statements and leaves the committed file alone. -/
theorem afterCommitPhase_post (cfg : MigCfg) (orig : Nat) (a : St) :
    PostPres a (afterCommitPhase cfg orig a) := by
  unfold afterCommitPhase
  exact postPres_vac cfg.engine _
    (postPres_ite_nch _ _ _
      (postPres_ite_set cfg.engine _ _ _
        (postPres_apply cfg.engine a Stmt.readFk (Or.inl rfl))))

/-- A failed `readExec` step carries its input state and the execution
failure error. -/
theorem readExec_error {cfg : MigCfg} {a b : St} {s : Stmt} {e : MigErr}
    (h : readExec cfg a s = .error (e, b)) : b = a ∧ e = MigErr.execFailure := by
  unfold readExec at h
  by_cases hf : cfg.engine.failsAt a.trace.length
  · simp [hf] at h
    exact ⟨h.2.symm, h.1.symm⟩
  · simp [hf] at h

/-- An engine without injected statement failures. -/
def noFail (eng : Engine) : Prop := ∀ n, eng.failsAt n = false

theorem readExec_noFail {cfg : MigCfg} (hNF : noFail cfg.engine) (a : St) (s : Stmt) :
    readExec cfg a s = .ok (applyStmt cfg.engine a s) := by
  unfold readExec
  simp [hNF a.trace.length]

theorem logExec_noFail {cfg : MigCfg} (hNF : noFail cfg.engine) (a : St) (s : Stmt) :
    logExec cfg a s =
      .ok { applyStmt cfg.engine a s with
            nChanges := (applyStmt cfg.engine a s).nChanges + 1 } := by
  unfold logExec
  simp [hNF a.trace.length]

theorem logExecAll_noFail {cfg : MigCfg} (hNF : noFail cfg.engine) :
    ∀ (l : List Stmt) (a : St), ∃ b, logExecAll cfg l a = .ok b := by
  intro l
  induction l with
  | nil => intro a; exact ⟨a, rfl⟩
  | cons s rest ih =>
    intro a
    unfold logExecAll
    rw [logExec_noFail hNF]
    exact ih _

/-- Analysis of the foreign-key check phase. -/
theorem fkPhase_ok_mem {cfg : MigCfg} {a b : St}
    (h : fkPhase cfg a = .ok b) (h0 : cfg.pristine.fk ≠ 0) :
    Stmt.fkCheck ∈ b.trace ∧ ∃ d, cfg.engine.fkCheckRows d = false := by
  unfold fkPhase at h
  rw [if_pos h0] at h
  cases hr : readExec cfg a .fkCheck with
  | error p =>
    rw [hr] at h
    simp [bind, Except.bind] at h
  | ok m =>
    rw [hr] at h
    simp only [bind, Except.bind] at h
    by_cases hrows : cfg.engine.fkCheckRows (live m)
    · rw [if_pos hrows] at h
      exact absurd h (by simp)
    · rw [if_neg hrows] at h
      simp only [pure, Except.pure, Except.ok.injEq] at h
      subst h
      have hm := readExec_ok hr
      constructor
      · rw [hm, applyStmt_trace]
        simp
      · exact ⟨live m, by simpa using hrows⟩

theorem fkPhase_error {cfg : MigCfg} {a b : St} {e : MigErr}
    (h : fkPhase cfg a = .error (e, b)) (hv : e = MigErr.fkViolation) :
    cfg.pristine.fk ≠ 0 ∧ Stmt.fkCheck ∈ b.trace ∧
    ∃ d, cfg.engine.fkCheckRows d = true := by
  unfold fkPhase at h
  by_cases h0 : cfg.pristine.fk ≠ 0
  · rw [if_pos h0] at h
    cases hr : readExec cfg a .fkCheck with
    | error p =>
      rw [hr] at h
      simp only [bind, Except.bind] at h
      obtain ⟨e2, b2⟩ := p
      simp at h
      obtain ⟨he, hb⟩ := h
      have := readExec_error hr
      rw [← he, this.2] at hv
      exact absurd hv (by simp)
    | ok m =>
      rw [hr] at h
      simp only [bind, Except.bind] at h
      by_cases hrows : cfg.engine.fkCheckRows (live m)
      · rw [if_pos hrows] at h
        simp at h
        refine ⟨h0, ?_, ⟨live m, by simpa using hrows⟩⟩
        rw [← h.2, readExec_ok hr, applyStmt_trace]
        simp
      · rw [if_neg hrows] at h
        simp [pure, Except.pure] at h
  · rw [if_neg h0] at h
    simp [pure, Except.pure] at h

/-- Splitting `performMigration` at the foreign-key check. -/
theorem performMigration_split (cfg : MigCfg) (st : St) :
    (∃ m, pmPrefix cfg st = .ok m ∧ performMigration cfg st = fkPhase cfg m) ∨
    (∃ p, pmPrefix cfg st = .error p ∧ performMigration cfg st = .error p) := by
  unfold performMigration
  cases hp : pmPrefix cfg st with
  | error p => exact Or.inr ⟨p, rfl, by simp [bind, Except.bind]⟩
  | ok m => exact Or.inl ⟨m, rfl, by simp [bind, Except.bind]⟩

/-- `onError` preserves the file and the transaction flag, and re-enables
the pragma exactly when the original value was on. -/
theorem onErrorPhase_fields (eng : Engine) (orig : Nat) (a : St) :
    (onErrorPhase eng orig a).file = a.file ∧
    (onErrorPhase eng orig a).txOpen = a.txOpen ∧
    (onErrorPhase eng orig a).connFk = (if orig ≠ 0 then 1 else a.connFk) ∧
    (onErrorPhase eng orig a).trace =
      a.trace ++ (if orig ≠ 0 then [Stmt.setFk 1] else []) := by
  by_cases h : orig ≠ 0 <;> simp [onErrorPhase, applyStmt, h]

/-- Mid-transaction statements are not pragma toggles. -/
theorem isMid_no_toggle (s : Stmt) (h : isMidStmt s = true) :
    (∀ v, s ≠ Stmt.setFk v) ∧ s ≠ Stmt.setDeferFk := by
  cases s <;> simp_all [isMidStmt]

/-! ## Claim theorems -/

/-- C3.  Atomicity and foreign-key restoration on failure: whenever
`migrate` propagates an error (from planning, table rebuild,
reconciliation, the foreign-key check, an injected statement failure or a
failed commit), the final committed file equals the file at `begin`, the
transaction is closed, and the connection `foreign_keys` pragma equals
its original value (re-enabled only when it was on at begin). -/
theorem C3_atomicity_on_failure (cfg : MigCfg) (file0 : DBFile) (fk0 : Nat)
    (e : MigErr) (hfk : fk0 ≤ 1)
    (h : (migrateModel cfg file0 fk0).outcome = .error e) :
    (migrateModel cfg file0 fk0).st.file = file0 ∧
    (migrateModel cfg file0 fk0).st.txOpen = false ∧
    (migrateModel cfg file0 fk0).st.connFk = fk0 := by
  rcases migrateModel_cases cfg file0 fk0 with
    ⟨st2, st3, hpm, hc, heq⟩ | ⟨e2, stE, hsrc, heq⟩
  · rw [heq] at h
    simp at h
  · have hmid := performMigration_pok_mid cfg (stBegin file0 fk0) rfl
    have hE : stE.file = file0 ∧ stE.connFk = 0 := by
      rcases hsrc with hpm | ⟨st2, hpm, hcm⟩
      · rw [hpm] at hmid
        exact ⟨hmid.1.1, hmid.1.2.2.1⟩
      · rw [hpm] at hmid
        have hse := readExec_error hcm
        rw [hse.1]
        exact ⟨hmid.1, hmid.2.2.1⟩
    rw [heq]
    have hroll := applyStmt_rollback cfg.engine stE
    have hon := onErrorPhase_fields cfg.engine fk0
      (applyStmt cfg.engine stE .rollbackTx)
    refine ⟨?_, ?_, ?_⟩
    · rw [hon.1, hroll]
      exact hE.1
    · rw [hon.2.1, hroll]
    · rw [hon.2.2.1, hroll]
      have : fk0 = 0 ∨ fk0 = 1 := by omega
      rcases this with rfl | rfl
      · simpa using hE.2
      · simp

/-- C8.  Transaction-scoped foreign-key state invariant: right after
`begin` the connection has `foreign_keys` off and `defer_foreign_keys`
on; every statement executed from there until the commit or rollback
marker is a mid-transaction statement, in particular none toggles either
pragma, and the state reaching commit or rollback still has
`foreign_keys = 0` and `defer_foreign_keys = true`; the `foreign_keys`
reconciliation statements appear only after the commit marker (in
`afterCommit`) or after the rollback marker (in `onError`). -/
theorem C8_fk_transaction_invariant (cfg : MigCfg) (file0 : DBFile) (fk0 : Nat) :
    (stBegin file0 fk0).connFk = 0 ∧ (stBegin file0 fk0).deferFk = true ∧
    ∃ (stPre : St) (mid post : List Stmt),
      stPre.connFk = 0 ∧ stPre.deferFk = true ∧ stPre.txOpen = true ∧
      stPre.trace = beginTrace fk0 ++ mid ∧
      (∀ s ∈ mid, isMidStmt s = true) ∧
      (∀ s ∈ mid, (∀ v, s ≠ Stmt.setFk v) ∧ s ≠ Stmt.setDeferFk) ∧
      (migrateModel cfg file0 fk0).st.trace = beginTrace fk0 ++ mid ++ post ∧
      (post.head? = some Stmt.commitTx ∨ post.head? = some Stmt.rollbackTx) := by
  refine ⟨rfl, rfl, ?_⟩
  have hbt : (stBegin file0 fk0).trace = beginTrace fk0 := rfl
  have hmid := performMigration_pok_mid cfg (stBegin file0 fk0) rfl
  rcases migrateModel_cases cfg file0 fk0 with
    ⟨st2, st3, hpm, hc, heq⟩ | ⟨e2, stE, hsrc, heq⟩
  · rw [hpm] at hmid
    obtain ⟨hf, ht, hck, hd, δ, htr, hp, hv, hta⟩ := hmid
    have hst3 := readExec_ok hc
    have hpost := afterCommitPhase_post cfg fk0 st3
    obtain ⟨hpf, δ2, hptr, hpp⟩ := hpost
    refine ⟨st2, δ, Stmt.commitTx :: δ2, hck, hd, ht, by rw [htr, hbt], hp,
      fun s hs => isMid_no_toggle s (hp s hs), ?_, Or.inl rfl⟩
    rw [heq]
    show (afterCommitPhase cfg fk0 st3).trace = _
    rw [hptr, hst3, applyStmt_trace, htr]
    show ((beginTrace fk0 ++ δ) ++ [Stmt.commitTx]) ++ δ2 = _
    simp [List.append_assoc]
  · have hE : PresP isMidStmt (stBegin file0 fk0) stE := by
      rcases hsrc with hpm | ⟨st2, hpm, hcm⟩
      · rw [hpm] at hmid
        exact hmid.1
      · rw [hpm] at hmid
        have hse := readExec_error hcm
        rw [hse.1]
        exact hmid
    obtain ⟨hf, ht, hck, hd, δ, htr, hp, hv, hta⟩ := hE
    have hon := onErrorPhase_fields cfg.engine fk0
      (applyStmt cfg.engine stE .rollbackTx)
    refine ⟨stE, δ, Stmt.rollbackTx :: (if fk0 ≠ 0 then [Stmt.setFk 1] else []),
      hck, hd, ht, by rw [htr, hbt], hp,
      fun s hs => isMid_no_toggle s (hp s hs), ?_, Or.inr rfl⟩
    rw [heq]
    show (onErrorPhase cfg.engine fk0 (applyStmt cfg.engine stE .rollbackTx)).trace = _
    rw [hon.2.2.2, applyStmt_trace, htr, hbt]
    simp [List.append_assoc]

/-! ## Concrete fixtures -/

/-- Engine with identity rename rewriting, no foreign-key violation rows
and no injected failures: a healthy database over consistent data. -/
def engId : Engine := ⟨fun _ _ sql => sql, fun _ => false, fun _ => false⟩

/-- Engine whose foreign-key check always reports violating rows. -/
def engRows : Engine := ⟨fun _ _ sql => sql, fun _ => true, fun _ => false⟩

/-- A freshly created database file. -/
def dbEmpty : DBFile := ⟨[], [], [], [], 0⟩

/-- Pristine image of a schema declaring one table and one view. -/
def priWithView : Pristine :=
  ⟨⟨[⟨"t", "CREATE TABLE t(id INTEGER)", ["id"]⟩], [], [],
    [⟨"v", "t", "CREATE VIEW v AS SELECT id FROM t"⟩], 0⟩, 0⟩

/-- First migration of the empty database to the table-and-view schema. -/
def runFirst : RunResult := migrateModel ⟨priWithView, false, engId⟩ dbEmpty 0

/-- Second migration with identical arguments, from the state the first
run left behind. -/
def runSecond : RunResult :=
  migrateModel ⟨priWithView, false, engId⟩ runFirst.st.file runFirst.st.connFk

/-- Pristine image of a schema declaring one table, `foreign_keys` off. -/
def priPlain : Pristine :=
  ⟨⟨[⟨"t", "CREATE TABLE t(id INTEGER)", ["id"]⟩], [], [], [], 0⟩, 0⟩

/-- A live file already matching `priPlain`. -/
def dbPlain : DBFile := ⟨[⟨"t", "CREATE TABLE t(id INTEGER)", ["id"]⟩], [], [], [], 0⟩

/-- C1.  The code violates the idempotence the specification states: after
a first successful migration of an empty database to a schema with one
table and one view, a second call with identical arguments leaves the
catalog unchanged, yet returns `true`: the unconditional view drop and the
identical view re-creation are both counted by `logExecute`, no
reconciliation rewinds them, and a `VACUUM` runs.  The documented
behaviour ("false if database already matches schema") requires `false`
here. -/
theorem C1_second_run_reports_changes :
    runFirst.outcome = .ok true ∧
    runSecond.st.file = runFirst.st.file ∧
    runSecond.st.connFk = runFirst.st.connFk ∧
    runSecond.outcome = .ok true ∧
    runSecond.st.nChanges = 2 ∧
    Stmt.vacuum ∈ runSecond.st.trace := by decide

/-- C2 counterexample.  With the live connection's `foreign_keys` on at
begin and the pristine's off, the claim requires `PRAGMA
foreign_key_check` to run; the code never runs it (it gates only on the
pristine value), and the run succeeds even though the engine would have
reported violating rows. -/
theorem C2_counterexample :
    (migrateModel ⟨priPlain, false, engRows⟩ dbPlain 1).outcome = .ok false ∧
    Stmt.fkCheck ∉ (migrateModel ⟨priPlain, false, engRows⟩ dbPlain 1).st.trace := by
  decide

/-- A live file holding one view and one table that the (empty) target
schema does not declare. -/
def dbStray : DBFile :=
  ⟨[⟨"gone", "CREATE TABLE gone(x)", ["x"]⟩], [], [],
   [⟨"w", "w", "CREATE VIEW w AS SELECT x FROM gone"⟩], 0⟩

/-- C4 counterexample.  The deletion guard does fire (with the names of
the dropped tables), but only after the unconditional `DROP VIEW`
statements have already been issued against the live database, refuting
"no DROP VIEW ... is issued ahead of the guard firing". -/
theorem C4_counterexample :
    (migrateModel ⟨⟨dbEmpty, 0⟩, false, engId⟩ dbStray 0).outcome =
      .error (.refuseDeleteTables ["gone"]) ∧
    Stmt.dropView "w" ∈ (migrateModel ⟨⟨dbEmpty, 0⟩, false, engId⟩ dbStray 0).st.trace := by
  decide

/-- Pristine image with an index whose sql text differs from the live one
only in whitespace. -/
def priIdx : Pristine :=
  ⟨⟨[⟨"t", "CREATE TABLE t(x)", ["x"]⟩],
    [⟨"i", "t", "CREATE  INDEX i ON t(x)"⟩], [], [], 0⟩, 0⟩

/-- Live file with the same index under a byte-different, normalize-equal
sql text. -/
def dbIdx : DBFile :=
  ⟨[⟨"t", "CREATE TABLE t(x)", ["x"]⟩],
   [⟨"i", "t", "CREATE INDEX i ON t(x)"⟩], [], [], 0⟩

/-- C6 counterexample.  The two index definitions normalize to the same
text, yet the code drops and recreates the index: index reconciliation
compares raw sql, not normalized sql. -/
theorem C6_counterexample :
    normaliseSql "CREATE INDEX i ON t(x)" = normaliseSql "CREATE  INDEX i ON t(x)" ∧
    Stmt.dropIndex "i" ∈ (migrateModel ⟨priIdx, false, engId⟩ dbIdx 0).st.trace ∧
    Stmt.createObj .index ⟨"i", "t", "CREATE  INDEX i ON t(x)"⟩ ∈
      (migrateModel ⟨priIdx, false, engId⟩ dbIdx 0).st.trace := by decide

/-- C7 counterexample.  The claimed step 4 keeps the quotes of a quoted
identifier beginning with a digit; the code's pattern is the full word
class and strips them. -/
theorem C7_counterexample :
    normaliseSql "\"42\"" ≠ normaliseSqlClaim "\"42\"" ∧
    normaliseSql "\"42\"" = "42" ∧ normaliseSqlClaim "\"42\"" = "\"42\"" := by decide

/-! ## The whitelist scan (claim C5) -/

/-- Modelled from the spec: a pragma occurrence as the claim reads it,
with the FULL pragma name (the maximal word run after the keyword)
checked against the whitelist, case-insensitively. -/
def nwPragmaAt (prev : Option Char) (cs : List Char) : Bool :=
  bdryBefore prev && ciHeadMatch "pragma".data cs &&
  (match cs.drop 6 with
   | [] => false
   | d :: ds =>
     isJsWs d &&
     (let tail := (d :: ds).dropWhile isJsWs
      let name := tail.takeWhile isWordChar
      !name.isEmpty &&
      !safePragmaNames.any (fun w => name.map lowerAscii = w.data)))

/-- Modelled from the spec: scan for a pragma whose full name is not
whitelisted. -/
def hasNWGo : Option Char → List Char → Bool
  | _, [] => false
  | prev, c :: rest => nwPragmaAt prev (c :: rest) || hasNWGo (some c) rest

/-- Modelled from the spec: whether the script contains a `PRAGMA <name>`
occurrence whose full name is not one of the whitelisted names. -/
def hasNonWhitelistedPragma (s : String) : Bool := hasNWGo none s.data

/-- C5 counterexample.  `PRAGMA foreign_keysx` has a full name outside the
whitelist, so the claim requires rejection, but the negative lookahead of
the source regex matches the whitelisted names as prefixes and the
validation lets the script through to the pristine database. -/
theorem C5_counterexample :
    hasNonWhitelistedPragma "PRAGMA foreign_keysx = 1" = true ∧
    ensurePristine "PRAGMA foreign_keysx = 1" (.ok priPlain) = .ok priPlain := by decide

/-- Taking as many elements as `takeWhile` keeps returns `takeWhile`. -/
theorem take_takeWhile_len (p : Char → Bool) :
    ∀ l : List Char, l.take (l.takeWhile p).length = l.takeWhile p := by
  intro l
  induction l with
  | nil => simp
  | cons c rest ih =>
    by_cases hc : p c
    · simp [List.takeWhile_cons, hc, ih]
    · simp [List.takeWhile_cons, hc]

/-- A match of the source scan regex is an occurrence of a pragma whose
full name is not whitelisted (the full name extends the matched position,
and a whitelisted full name would make the lookahead prefix test
succeed). -/
theorem unsafeAt_to_nwAt (prev : Option Char) (cs : List Char)
    (h : unsafePragmaAt prev cs = true) : nwPragmaAt prev cs = true := by
  unfold unsafePragmaAt at h
  unfold nwPragmaAt
  simp only [Bool.and_eq_true] at h ⊢
  obtain ⟨⟨hb, hci⟩, hrest⟩ := h
  refine ⟨⟨hb, hci⟩, ?_⟩
  cases hdrop : cs.drop 6 with
  | nil => rw [hdrop] at hrest; exact absurd hrest (by simp)
  | cons d ds =>
    rw [hdrop] at hrest
    simp only [Bool.and_eq_true] at hrest ⊢
    obtain ⟨hws, htail⟩ := hrest
    refine ⟨hws, ?_⟩
    cases htl : (d :: ds).dropWhile isJsWs with
    | nil => rw [htl] at htail; exact absurd htail (by simp)
    | cons t ts =>
      rw [htl] at htail
      simp only [Bool.and_eq_true] at htail
      obtain ⟨htw, hnpref⟩ := htail
      simp only [Bool.and_eq_true, Bool.not_eq_true']
      constructor
      · simp [List.takeWhile_cons, htw]
      · simp only [Bool.not_eq_true'] at hnpref
        simp only [wlPref, List.any_eq_false] at hnpref
        refine List.any_eq_false.mpr ?_
        intro w hw hdec
        have heq := of_decide_eq_true hdec
        have hcm : ciHeadMatch w.data (t :: ts) = true := by
          unfold ciHeadMatch
          have hlen : w.data.length = ((t :: ts).takeWhile isWordChar).length := by
            rw [← heq]
            simp
          rw [hlen, take_takeWhile_len]
          simp [heq]
        exact hnpref w hw hcm

/-- Scan propagation: a source-regex match implies a non-whitelisted full
name somewhere. -/
theorem scanGo_to_nwGo :
    ∀ (cs : List Char) (prev : Option Char),
      scanUnsafePragmaGo prev cs = true → hasNWGo prev cs = true := by
  intro cs
  induction cs with
  | nil => intro prev h; simpa [scanUnsafePragmaGo] using h
  | cons c rest ih =>
    intro prev h
    unfold scanUnsafePragmaGo at h
    rw [Bool.or_eq_true] at h
    unfold hasNWGo
    rw [Bool.or_eq_true]
    rcases h with h | h
    · exact Or.inl (unsafeAt_to_nwAt prev (c :: rest) h)
    · exact Or.inr (ih (some c) h)

/-- C5 amended.  The source scan matches the whitelisted names as
prefixes of the pragma name: a schema matching the scan (word-boundary
`pragma`, whitespace, then a word character whose following text extends
no whitelisted name) is rejected with the unsafe-PRAGMA error before the
pristine database is populated; conversely a script whose pragma
occurrences all carry whitelisted full names is never rejected by this
scan — but names that merely extend a whitelisted name (such as
`foreign_keysx`) also pass. -/
theorem C5_amended (s : String) (exec : Except String Pristine)
    (hne : (jsTrim s.data).isEmpty = false)
    (hatt : scanAttach s = false) (hdet : scanDetach s = false) :
    (scanUnsafePragma s = true →
      ensurePristine s exec = .error (.invalidSchema "unsafe PRAGMA")) ∧
    (hasNonWhitelistedPragma s = false →
      ensurePristine s exec ≠ .error (.invalidSchema "unsafe PRAGMA")) := by
  constructor
  · intro hscan
    unfold ensurePristine
    simp [hne, hatt, hdet, hscan]
  · intro hnw
    have hscan : scanUnsafePragma s = false := by
      cases h2 : scanUnsafePragma s with
      | false => rfl
      | true =>
        have := scanGo_to_nwGo s.data none h2
        rw [hasNonWhitelistedPragma] at hnw
        rw [this] at hnw
        exact absurd hnw (by simp)
    unfold ensurePristine
    simp only [hne, hatt, hdet, hscan, Bool.false_eq_true, if_false, ite_false]
    cases exec with
    | ok p => simp
    | error m =>
      simp only [ne_eq, Except.error.injEq, MigErr.invalidSchema.injEq]
      intro heq
      have hlen := congrArg String.length heq
      have h20 : ("Invalid schema SQL: " : String).length = 20 := by decide
      have h13 : ("unsafe PRAGMA" : String).length = 13 := by decide
      simp [String.length_append, h20, h13] at hlen
      omega

/-- C5 witness: a genuinely unsafe pragma is rejected. -/
theorem C5_witness :
    ensurePristine "PRAGMA journal_mode = WAL" (.ok priPlain) =
      .error (.invalidSchema "unsafe PRAGMA") :=
  (C5_amended "PRAGMA journal_mode = WAL" (.ok priPlain)
    (by decide) (by decide) (by decide)).1 (by decide)

/-! ## The normalizer on quoted identifiers (claim C7) -/

theorem word_not_ws {c : Char} (h : isWordChar c = true) : isJsWs c = false := by
  unfold isJsWs
  simp only [Bool.or_eq_false_iff, decide_eq_false_iff_not]
  refine ⟨⟨⟨⟨⟨⟨⟨?_, ?_⟩, ?_⟩, ?_⟩, ?_⟩, ?_⟩, ?_⟩, ?_⟩ <;>
    · intro hc
      rw [hc] at h
      revert h
      decide

/-- The comment stripper is the identity on text without a dash. -/
theorem stripCommF_no_dash :
    ∀ (f : Nat) (l : List Char), (∀ c ∈ l, c ≠ '-') → stripCommF f l = l := by
  intro f
  induction f with
  | zero => intro l h; rfl
  | succ n ih =>
    intro l h
    match l with
    | [] => rfl
    | [c] => rfl
    | c :: d :: rest =>
      have hc : c ≠ '-' := h c (by simp)
      simp only [stripCommF]
      rw [if_neg (fun hand => hc hand.1)]
      rw [ih (d :: rest) (fun x hx => h x (List.mem_cons_of_mem c hx))]

/-- The whitespace collapser is the identity on whitespace-free text. -/
theorem collapseWsF_id :
    ∀ (f : Nat) (l : List Char), (∀ c ∈ l, isJsWs c = false) → collapseWsF f l = l := by
  intro f
  induction f with
  | zero => intro l h; rfl
  | succ n ih =>
    intro l h
    match l with
    | [] => rfl
    | c :: rest =>
      have hc := h c (by simp)
      simp only [collapseWsF]
      rw [if_neg (by simp [hc])]
      rw [ih rest (fun x hx => h x (List.mem_cons_of_mem c hx))]

/-- The delimiter squeezer is the identity on text without delimiters and
spaces. -/
theorem squeezeDelimsF_id :
    ∀ (f : Nat) (l : List Char), (∀ c ∈ l, isDelim c = false ∧ c ≠ ' ') →
      squeezeDelimsF f l = l := by
  intro f
  induction f with
  | zero => intro l h; rfl
  | succ n ih =>
    intro l h
    match l with
    | [] => rfl
    | c :: rest =>
      have hc := h c (by simp)
      simp only [squeezeDelimsF]
      rw [if_neg (by simp [hc.1]), if_neg hc.2]
      rw [ih rest (fun x hx => h x (List.mem_cons_of_mem c hx))]

/-- `dropWhile` is the identity on a list whose members all fail the
test. -/
theorem dropWhile_id {p : Char → Bool} :
    ∀ l : List Char, (∀ c ∈ l, p c = false) → l.dropWhile p = l := by
  intro l h
  match l with
  | [] => rfl
  | c :: rest =>
    rw [List.dropWhile_cons_of_neg]
    simp [h c (by simp)]

/-- Trimming is the identity on whitespace-free text. -/
theorem jsTrim_id (l : List Char) (h : ∀ c ∈ l, isJsWs c = false) :
    jsTrim l = l := by
  unfold jsTrim
  rw [dropWhile_id l h]
  rw [dropWhile_id l.reverse (fun c hc => h c (List.mem_reverse.mp hc))]
  exact List.reverse_reverse l

/-- The quote stripper on the empty list. -/
theorem stripQuotesByF_nil (good : List Char → Bool) :
    ∀ f : Nat, stripQuotesByF good f [] = [] := by
  intro f
  cases f <;> rfl

theorem takeWhile_append_quote {w : List Char}
    (hw : ∀ c ∈ w, isWordChar c = true) :
    (w ++ ['"']).takeWhile isWordChar = w := by
  have hq : isWordChar '"' = false := by decide
  induction w with
  | nil => simp [List.takeWhile_cons, hq]
  | cons c rest ih =>
    have hc := hw c (by simp)
    simp only [List.cons_append, List.takeWhile_cons, hc]
    simp [ih (fun x hx => hw x (List.mem_cons_of_mem c hx))]

theorem dropWhile_append_quote {w : List Char}
    (hw : ∀ c ∈ w, isWordChar c = true) :
    (w ++ ['"']).dropWhile isWordChar = ['"'] := by
  have hq : isWordChar '"' = false := by decide
  induction w with
  | nil => simp [List.dropWhile_cons, hq]
  | cons c rest ih =>
    have hc := hw c (by simp)
    simp only [List.cons_append, List.dropWhile_cons, hc]
    simp [ih (fun x hx => hw x (List.mem_cons_of_mem c hx))]

/-- The quote stripper strips a quoted full word run, for any predicate
accepting that run. -/
theorem stripQuotesByF_strip (good : List Char → Bool) (w : List Char)
    (hw : ∀ c ∈ w, isWordChar c = true) (hgood : good w = true) (f : Nat) :
    stripQuotesByF good (f + 1) ('"' :: (w ++ ['"'])) = w := by
  simp only [stripQuotesByF]
  rw [dropWhile_append_quote hw, takeWhile_append_quote hw]
  simp [hgood, stripQuotesByF_nil]

/-- The quote stripper passes over quote-free text followed by a final
quote. -/
theorem stripQuotesByF_pass (good : List Char → Bool) :
    ∀ (w : List Char) (f : Nat), (∀ c ∈ w, c ≠ '"') →
      stripQuotesByF good f (w ++ ['"']) = w ++ ['"'] := by
  intro w
  induction w with
  | nil =>
    intro f h
    cases f with
    | zero => rfl
    | succ n =>
      simp only [List.nil_append, stripQuotesByF, List.dropWhile_nil]
      simp [stripQuotesByF_nil]
  | cons c rest ih =>
    intro f h
    have hc := h c (by simp)
    cases f with
    | zero => rfl
    | succ n =>
      simp only [List.cons_append, stripQuotesByF]
      simp [hc, ih n (fun x hx => h x (List.mem_cons_of_mem c hx))]

/-- Where `dropWhile isWordChar` stops when the run contains a non-word
character: at a non-word character of the run itself. -/
theorem dropWhile_stops {w : List Char} (hex : ∃ c ∈ w, isWordChar c = false) :
    ∃ d rest3, (w ++ ['"']).dropWhile isWordChar = d :: rest3 ∧
      d ∈ w ∧ isWordChar d = false := by
  induction w with
  | nil => simp at hex
  | cons c rest ih =>
    by_cases hc : isWordChar c = true
    · have hex2 : ∃ x ∈ rest, isWordChar x = false := by
        obtain ⟨x, hx, hxw⟩ := hex
        rcases List.mem_cons.mp hx with rfl | hx2
        · rw [hc] at hxw; exact absurd hxw (by simp)
        · exact ⟨x, hx2, hxw⟩
      obtain ⟨d, rest3, hd, hdm, hdw⟩ := ih hex2
      refine ⟨d, rest3, ?_, List.mem_cons_of_mem c hdm, hdw⟩
      simp only [List.cons_append, List.dropWhile_cons, hc]
      simpa using hd
    · refine ⟨c, rest ++ ['"'], ?_, by simp, by simpa using hc⟩
      simp only [List.cons_append, List.dropWhile_cons]
      simp [hc]

/-- C7 amended.  The fourth normalizer step strips double quotes from
exactly the quoted full word runs (the `\w` class `[A-Za-z0-9_]+`),
including runs beginning with a digit, while quoted identifiers
containing a character outside the word class keep their quotes: for any
non-empty word run `w`, `normaliseSql` of the quoted `w` is `w` itself,
and for any run containing a non-word character (and none of the
characters the earlier pipeline steps rewrite), `normaliseSql` keeps the
quotes. -/
theorem C7_amended :
    (∀ w : List Char, w ≠ [] → (∀ c ∈ w, isWordChar c = true) →
      normaliseSql (String.mk ('"' :: (w ++ ['"']))) = String.mk w) ∧
    (∀ w : List Char,
      (∃ c ∈ w, isWordChar c = false) →
      (∀ c ∈ w, c ≠ '"' ∧ isJsWs c = false ∧ isDelim c = false ∧ c ≠ ' ' ∧ c ≠ '-') →
      normaliseSql (String.mk ('"' :: (w ++ ['"']))) =
        String.mk ('"' :: (w ++ ['"']))) := by
  have hqprop : ∀ c : Char, c = '"' →
      c ≠ '-' ∧ isJsWs c = false ∧ isDelim c = false ∧ c ≠ ' ' := by
    intro c hc
    subst hc
    refine ⟨by decide, by decide, by decide, by decide⟩
  constructor
  · intro w hne hw
    have hall : ∀ c ∈ '"' :: (w ++ ['"']), c ≠ '-' := by
      intro c hc
      rcases List.mem_cons.mp hc with rfl | hc2
      · decide
      · rcases List.mem_append.mp hc2 with hcw | hcq
        · intro hd
          have := hw c hcw
          rw [hd] at this
          revert this
          decide
        · simp at hcq
          subst hcq
          decide
    have hallws : ∀ c ∈ '"' :: (w ++ ['"']), isJsWs c = false := by
      intro c hc
      rcases List.mem_cons.mp hc with rfl | hc2
      · decide
      · rcases List.mem_append.mp hc2 with hcw | hcq
        · exact word_not_ws (hw c hcw)
        · simp at hcq
          subst hcq
          decide
    have halld : ∀ c ∈ '"' :: (w ++ ['"']), isDelim c = false ∧ c ≠ ' ' := by
      intro c hc
      rcases List.mem_cons.mp hc with rfl | hc2
      · exact ⟨by decide, by decide⟩
      · rcases List.mem_append.mp hc2 with hcw | hcq
        · have := hw c hcw
          constructor
          · by_contra hcon
            simp only [Bool.not_eq_false] at hcon
            revert this
            unfold isDelim at hcon
            simp only [Bool.or_eq_true, decide_eq_true_eq] at hcon
            rcases hcon with (rfl | rfl) | rfl <;> decide
          · intro hsp
            rw [hsp] at this
            revert this
            decide
        · simp at hcq
          subst hcq
          exact ⟨by decide, by decide⟩
    unfold normaliseSql
    refine congrArg String.mk ?_
    unfold stripLineComments
    rw [stripCommF_no_dash _ _ hall]
    unfold collapseWs
    rw [collapseWsF_id _ _ hallws]
    unfold squeezeDelims
    rw [squeezeDelimsF_id _ _ halld]
    unfold stripQuotesBy
    have hlen : ('"' :: (w ++ ['"'])).length = (w.length + 1) + 1 := by simp
    rw [hlen]
    rw [stripQuotesByF_strip goodWordRun w hw
      (by unfold goodWordRun; simp [hne]) (w.length + 1 + 1)]
    exact jsTrim_id w (fun c hc => word_not_ws (hw c hc))
  · intro w hex hw
    have hall : ∀ c ∈ '"' :: (w ++ ['"']), c ≠ '-' := by
      intro c hc
      rcases List.mem_cons.mp hc with rfl | hc2
      · decide
      · rcases List.mem_append.mp hc2 with hcw | hcq
        · exact (hw c hcw).2.2.2.2
        · simp at hcq; subst hcq; decide
    have hallws : ∀ c ∈ '"' :: (w ++ ['"']), isJsWs c = false := by
      intro c hc
      rcases List.mem_cons.mp hc with rfl | hc2
      · decide
      · rcases List.mem_append.mp hc2 with hcw | hcq
        · exact (hw c hcw).2.1
        · simp at hcq; subst hcq; decide
    have halld : ∀ c ∈ '"' :: (w ++ ['"']), isDelim c = false ∧ c ≠ ' ' := by
      intro c hc
      rcases List.mem_cons.mp hc with rfl | hc2
      · exact ⟨by decide, by decide⟩
      · rcases List.mem_append.mp hc2 with hcw | hcq
        · exact ⟨(hw c hcw).2.2.1, (hw c hcw).2.2.2.1⟩
        · simp at hcq; subst hcq; exact ⟨by decide, by decide⟩
    unfold normaliseSql
    refine congrArg String.mk ?_
    unfold stripLineComments
    rw [stripCommF_no_dash _ _ hall]
    unfold collapseWs
    rw [collapseWsF_id _ _ hallws]
    unfold squeezeDelims
    rw [squeezeDelimsF_id _ _ halld]
    unfold stripQuotesBy
    have hlen : ('"' :: (w ++ ['"'])).length = (w.length + 1) + 1 := by simp
    rw [hlen]
    obtain ⟨d, rest3, hd, hdm, hdw⟩ := dropWhile_stops hex
    have hstep : stripQuotesByF goodWordRun ((w.length + 1) + 1 + 1) ('"' :: (w ++ ['"'])) =
        '"' :: (w ++ ['"']) := by
      simp only [stripQuotesByF, if_true, ite_true]
      rw [hd]
      dsimp only
      rw [if_neg ?hneg]
      case hneg =>
        intro hand
        exact (hw d hdm).1 hand.2
      rw [stripQuotesByF_pass goodWordRun w (w.length + 1 + 1) (fun c hc => (hw c hc).1)]
    rw [hstep]
    exact jsTrim_id _ hallws

/-- C7 witness: the digit-initial identifier of the counterexample is
stripped by the real normalizer, instantiating the amended step 4. -/
theorem C7_witness : normaliseSql (String.mk ('"' :: (['4', '2'] ++ ['"']))) =
    String.mk ['4', '2'] :=
  C7_amended.1 ['4', '2'] (by decide) (by decide)

/-! ## The empty schema (claim C10) -/

/-- Against an empty pristine catalog, every live table is in the removed
set. -/
theorem removedTableNames_empty (l : List TableEntry) :
    removedTableNames emptyPristine.file l = l.map (fun e => e.name) := by
  unfold removedTableNames
  congr 1
  refine List.filter_eq_self.mpr ?_
  intro e _
  simp [hasTbl, emptyPristine]

/-- C10.  An empty (or whitespace-only) schema passes validation with the
pristine initialization skipped, so the pristine catalog is empty; against
a live database holding at least one user table, the run then fails with
the deletion guard listing every live table — it does not return `false`
— and the on-disk file is untouched. -/
theorem C10_empty_schema_requests_deletion (eng : Engine)
    (exec : Except String Pristine) (file0 : DBFile) (fk0 : Nat)
    (hNF : noFail eng) (hne : file0.tables ≠ []) :
    (migrateFull "" exec false eng file0 fk0).outcome =
      .error (.refuseDeleteTables (file0.tables.map (fun e => e.name))) ∧
    (migrateFull "" exec false eng file0 fk0).st.file = file0 := by
  have hens : ensurePristine "" exec = .ok emptyPristine := rfl
  have hcfg : migrateFull "" exec false eng file0 fk0 =
      migrateModel ⟨emptyPristine, false, eng⟩ file0 fk0 := by
    unfold migrateFull
    rw [hens]
  set cfg : MigCfg := ⟨emptyPristine, false, eng⟩ with hcfgdef
  have hNFc : noFail cfg.engine := hNF
  -- the two catalog reads
  set st0 := stBegin file0 fk0 with hst0
  set a1 := applyStmt cfg.engine st0 (.readMaster .table) with ha1
  set a2 := applyStmt cfg.engine a1 (.readMaster .view) with ha2
  have ha2tx : a2.tx = file0 := rfl
  have ha2open : a2.txOpen = true := rfl
  have ha2file : a2.file = file0 := rfl
  -- the unconditional view drops preserve the table catalog
  obtain ⟨b, hb⟩ := logExecAll_noFail hNFc
    ((live a2).views.map (fun v => Stmt.dropView v.name)) a2
  have hdv : dropViewsPhase cfg a2 = .ok b := by
    unfold dropViewsPhase
    exact hb
  have hpok := dropViewsPhase_pok (P := tableInert) (E := fun _ => True)
    cfg a2 ha2open (fun n => rfl) trivial
  rw [hdv] at hpok
  obtain ⟨hbf, hbo, hbc, hbd, δ, hbtr, hbP, hbv, hbta⟩ := hpok
  have hbtables : b.tx.tables = file0.tables := by
    rw [hbta hbP, ha2tx]
  have hbopen : b.txOpen = true := by rw [hbo, ha2open]
  -- the deletion guard fires
  have hlive : (live b).tables = file0.tables := by
    unfold live
    rw [hbopen]
    simp [hbtables]
  have hrem : removedTableNames cfg.pristine.file (live b).tables =
      file0.tables.map (fun e => e.name) := by
    rw [hlive]
    exact removedTableNames_empty file0.tables
  have hremne : removedTableNames cfg.pristine.file (live b).tables ≠ [] := by
    rw [hrem]
    simp only [ne_eq, List.map_eq_nil]
    exact hne
  have htp : tablesPhase cfg b =
      .error (.refuseDeleteTables (file0.tables.map (fun e => e.name)), b) := by
    unfold tablesPhase
    rw [if_pos ⟨hremne, by simp [hcfgdef]⟩]
    rw [hrem]
  -- prefix and full phase produce the error
  have hpm : performMigration cfg st0 =
      .error (.refuseDeleteTables (file0.tables.map (fun e => e.name)), b) := by
    unfold performMigration pmPrefix
    simp only [bind, Except.bind]
    rw [readExec_noFail hNFc st0 (.readMaster .table)]
    dsimp only
    rw [← ha1, readExec_noFail hNFc a1 (.readMaster .view)]
    dsimp only
    rw [← ha2, hdv]
    dsimp only
    rw [htp]
  -- assemble the run
  rcases migrateModel_cases cfg file0 fk0 with
    ⟨st2, st3, hpm2, hc2, heq⟩ | ⟨e2, stE, hsrc, heq⟩
  · rw [hpm] at hpm2
    exact absurd hpm2 (by simp)
  · have hes : e2 = .refuseDeleteTables (file0.tables.map (fun e => e.name)) ∧
        stE = b := by
      rcases hsrc with hsrc | ⟨st2, hsrc, _⟩
      · rw [hpm] at hsrc
        simp at hsrc
        exact ⟨hsrc.1.symm, hsrc.2.symm⟩
      · rw [hpm] at hsrc
        exact absurd hsrc (by simp)
    obtain ⟨rfl, rfl⟩ := hes
    rw [hcfg, heq]
    refine ⟨rfl, ?_⟩
    show (onErrorPhase cfg.engine fk0 (applyStmt cfg.engine stE .rollbackTx)).file = file0
    rw [(onErrorPhase_fields cfg.engine fk0 _).1, applyStmt_rollback]
    show stE.file = file0
    rw [hbf, ha2file]

/-- C10 witness: migrating a one-table database to the empty schema fails
with the guard naming that table. -/
theorem C10_witness :
    (migrateFull "" (.ok priPlain) false engId dbPlain 0).outcome =
      .error (.refuseDeleteTables ["t"]) ∧
    (migrateFull "" (.ok priPlain) false engId dbPlain 0).st.file = dbPlain :=
  C10_empty_schema_requests_deletion engId (.ok priPlain) dbPlain 0
    (fun _ => rfl) (by decide)

/-! ## The foreign-key check gate (claim C2) -/

theorem fkCheck_not_beginTrace (fk0 : Nat) : Stmt.fkCheck ∉ beginTrace fk0 := by
  by_cases h : fk0 ≠ 0 <;> simp [beginTrace, h]

/-- C2 amended.  The orchestrator executes `PRAGMA foreign_key_check`
before commit exactly when the PRISTINE database's `foreign_keys` pragma
is on (the live connection's original value plays no role in the gate),
and it fails with the foreign-key violation error exactly when that check
reports at least one row: with the pristine pragma off, no check is ever
executed and no foreign-key violation is ever raised; a raised violation
implies the pristine pragma was on, the check ran and the engine reported
rows; a completed run with the pristine pragma on implies the check ran
and reported no rows. -/
theorem C2_amended (cfg : MigCfg) (file0 : DBFile) (fk0 : Nat) :
    (cfg.pristine.fk = 0 →
      Stmt.fkCheck ∉ (migrateModel cfg file0 fk0).st.trace ∧
      ∀ e, (migrateModel cfg file0 fk0).outcome = .error e → e ≠ .fkViolation) ∧
    ((migrateModel cfg file0 fk0).outcome = .error .fkViolation →
      cfg.pristine.fk ≠ 0 ∧ Stmt.fkCheck ∈ (migrateModel cfg file0 fk0).st.trace ∧
      ∃ d, cfg.engine.fkCheckRows d = true) ∧
    (∀ bv, (migrateModel cfg file0 fk0).outcome = .ok bv → cfg.pristine.fk ≠ 0 →
      Stmt.fkCheck ∈ (migrateModel cfg file0 fk0).st.trace ∧
      ∃ d, cfg.engine.fkCheckRows d = false) := by
  have hbt : (stBegin file0 fk0).trace = beginTrace fk0 := rfl
  have hnb := fkCheck_not_beginTrace fk0
  refine ⟨?_, ?_, ?_⟩
  · intro h0
    have hpok := performMigration_pok_nofk cfg (stBegin file0 fk0) rfl h0
    rcases migrateModel_cases cfg file0 fk0 with
      ⟨st2, st3, hpm, hc, heq⟩ | ⟨e2, stE, hsrc, heq⟩
    · rw [hpm] at hpok
      obtain ⟨_, _, _, _, δ, htr, hp, _, _⟩ := hpok
      have hst3 := readExec_ok hc
      obtain ⟨_, δ2, hptr, hpp⟩ := afterCommitPhase_post cfg fk0 st3
      constructor
      · rw [heq]
        show Stmt.fkCheck ∉ (afterCommitPhase cfg fk0 st3).trace
        rw [hptr, hst3, applyStmt_trace, htr, hbt]
        intro hmem
        rcases List.mem_append.mp hmem with hmem | hmem
        · rcases List.mem_append.mp hmem with hmem | hmem
          · rcases List.mem_append.mp hmem with hmem | hmem
            · exact hnb hmem
            · have := hp _ hmem
              simp [preFkStmt] at this
          · simp at hmem
        · rcases hpp _ hmem with h | ⟨v, h⟩ | h <;> simp at h
      · intro e he
        rw [heq] at he
        simp at he
    · have hE : PresP preFkStmt (stBegin file0 fk0) stE ∧ e2 ≠ MigErr.fkViolation := by
        rcases hsrc with hpm | ⟨st2, hpm, hcm⟩
        · rw [hpm] at hpok
          exact hpok
        · rw [hpm] at hpok
          have hse := readExec_error hcm
          refine ⟨by rw [hse.1]; exact hpok, by rw [hse.2]; simp⟩
      obtain ⟨⟨_, _, _, _, δ, htr, hp, _, _⟩, hnv⟩ := hE
      have hon := onErrorPhase_fields cfg.engine fk0 (applyStmt cfg.engine stE .rollbackTx)
      constructor
      · rw [heq]
        show Stmt.fkCheck ∉
          (onErrorPhase cfg.engine fk0 (applyStmt cfg.engine stE .rollbackTx)).trace
        rw [hon.2.2.2, applyStmt_trace, htr, hbt]
        intro hmem
        rcases List.mem_append.mp hmem with hmem | hmem
        · rcases List.mem_append.mp hmem with hmem | hmem
          · rcases List.mem_append.mp hmem with hmem | hmem
            · exact hnb hmem
            · have := hp _ hmem
              simp [preFkStmt] at this
          · simp at hmem
        · by_cases hz : fk0 ≠ 0 <;> simp [hz] at hmem
      · intro e he
        rw [heq] at he
        simp at he
        rw [← he]
        exact hnv
  · intro hout
    rcases migrateModel_cases cfg file0 fk0 with
      ⟨st2, st3, hpm, hc, heq⟩ | ⟨e2, stE, hsrc, heq⟩
    · rw [heq] at hout
      simp at hout
    · rw [heq] at hout
      simp at hout
      subst hout
      have hsrc2 : performMigration cfg (stBegin file0 fk0) =
          .error (MigErr.fkViolation, stE) := by
        rcases hsrc with h | ⟨st2, hpm, hcm⟩
        · exact h
        · have hse := readExec_error hcm
          exact absurd hse.2 (by simp)
      rcases performMigration_split cfg (stBegin file0 fk0) with
        ⟨m, hpre, hsplit⟩ | ⟨p, hpre, hsplit⟩
      · rw [hsplit] at hsrc2
        have hfk := fkPhase_error hsrc2 rfl
        refine ⟨hfk.1, ?_, hfk.2.2⟩
        rw [heq]
        show Stmt.fkCheck ∈
          (onErrorPhase cfg.engine fk0 (applyStmt cfg.engine stE .rollbackTx)).trace
        have hon := onErrorPhase_fields cfg.engine fk0
          (applyStmt cfg.engine stE .rollbackTx)
        rw [hon.2.2.2, applyStmt_trace]
        exact List.mem_append.mpr (Or.inl (List.mem_append.mpr (Or.inl hfk.2.1)))
      · have hpok := pmPrefix_pok (P := preFkStmt)
          (E := fun e => e ≠ MigErr.fkViolation) cfg (stBegin file0 fk0) rfl
          (fun s hs hne => by simp [preFkStmt, hs, hne]) (by simp)
          (fun _ _ => by simp) (fun _ => by simp)
        rw [hpre] at hpok
        rw [hsplit] at hsrc2
        obtain ⟨e3, st3⟩ := p
        simp at hsrc2
        rw [hsrc2.1] at hpok
        exact absurd rfl hpok.2
  · intro bv hout h0
    rcases migrateModel_cases cfg file0 fk0 with
      ⟨st2, st3, hpm, hc, heq⟩ | ⟨e2, stE, hsrc, heq⟩
    · rcases performMigration_split cfg (stBegin file0 fk0) with
        ⟨m, hpre, hsplit⟩ | ⟨p, hpre, hsplit⟩
      · rw [hsplit] at hpm
        have hfk := fkPhase_ok_mem hpm h0
        refine ⟨?_, hfk.2⟩
        rw [heq]
        show Stmt.fkCheck ∈ (afterCommitPhase cfg fk0 st3).trace
        obtain ⟨_, δ2, hptr, _⟩ := afterCommitPhase_post cfg fk0 st3
        rw [hptr, readExec_ok hc, applyStmt_trace]
        exact List.mem_append.mpr (Or.inl (List.mem_append.mpr (Or.inl hfk.1)))
      · rw [hsplit] at hpm
        exact absurd hpm (by simp)
    · rw [heq] at hout
      simp at hout

/-- The C2 amended gate evaluated at two concrete runs: a matching
database with the pristine pragma off never reaches the check, and the
same database with the pristine pragma on does. -/
theorem C2_witness :
    Stmt.fkCheck ∉ (migrateModel ⟨priPlain, false, engRows⟩ dbPlain 1).st.trace ∧
    Stmt.fkCheck ∈ (migrateModel ⟨⟨dbPlain, 1⟩, false, engId⟩ dbPlain 0).st.trace :=
  ⟨((C2_amended ⟨priPlain, false, engRows⟩ dbPlain 1).1 rfl).1,
   ((C2_amended ⟨⟨dbPlain, 1⟩, false, engId⟩ dbPlain 0).2.2 true
     (by decide) (by decide)).1⟩

/-! ## The deletion guards (claim C4) -/

/-- A counted statement throws only the execution-failure error, at an
unchanged state. -/
theorem logExec_error {cfg : MigCfg} {a b : St} {s : Stmt} {e : MigErr}
    (h : logExec cfg a s = .error (e, b)) : b = a ∧ e = MigErr.execFailure := by
  unfold logExec at h
  by_cases hf : cfg.engine.failsAt a.trace.length
  · simp [hf] at h
    exact ⟨h.2.symm, h.1.symm⟩
  · simp [hf] at h

/-- A counted statement loop throws only the execution-failure error. -/
theorem logExecAll_error_kind {cfg : MigCfg} :
    ∀ {l : List Stmt} {a b : St} {e : MigErr},
      logExecAll cfg l a = .error (e, b) → e = MigErr.execFailure := by
  intro l
  induction l with
  | nil =>
    intro a b e h
    simp [logExecAll] at h
  | cons s rest ih =>
    intro a b e h
    unfold logExecAll at h
    cases hr : logExec cfg a s with
    | error p =>
      rw [hr] at h
      obtain ⟨e1, b1⟩ := p
      simp at h
      rw [← h.1]
      exact (logExec_error hr).2
    | ok a2 =>
      rw [hr] at h
      exact ih h

/-- A table rebuild throws only the execution-failure error or the
refused-column-removal error naming its own table. -/
theorem recreateTable_error_kind {cfg : MigCfg} {t sql : String} {a b : St} {e : MigErr}
    (h : recreateTable cfg t sql a = .error (e, b)) :
    e = MigErr.execFailure ∨ ∃ cols, e = MigErr.refuseRemoveColumns cols t := by
  unfold recreateTable at h
  cases h1 : readExec cfg a (.readDeps t) with
  | error p =>
    rw [h1] at h
    simp only [bind, Except.bind] at h
    obtain ⟨e1, b1⟩ := p
    simp at h
    exact Or.inl (h.1 ▸ (readExec_error h1).2)
  | ok a1 =>
    rw [h1] at h
    simp only [bind, Except.bind] at h
    try dsimp only at h
    cases h2 : logExecAll cfg
        ((depTriggers (live a1) t).map (fun e => Stmt.dropTrigger e.name)) a1 with
    | error p =>
      rw [h2] at h
      simp only [bind, Except.bind] at h
      obtain ⟨e1, b1⟩ := p
      simp at h
      exact Or.inl (h.1 ▸ logExecAll_error_kind h2)
    | ok a2 =>
      rw [h2] at h
      simp only [bind, Except.bind] at h
      try dsimp only at h
      cases h3 : logExec cfg a2 (.createRenamed t (t ++ "_migration_new")
          (replaceWholeWordCI t (t ++ "_migration_new") sql)
          (colsOfT cfg.pristine.file.tables t)) with
      | error p =>
        rw [h3] at h
        simp only [bind, Except.bind] at h
        obtain ⟨e1, b1⟩ := p
        simp at h
        exact Or.inl (h.1 ▸ (logExec_error h3).2)
      | ok a3 =>
        rw [h3] at h
        simp only [bind, Except.bind] at h
        try dsimp only at h
        cases h4 : readExec cfg a3 (.readTableInfo t) with
        | error p =>
          rw [h4] at h
          simp only [bind, Except.bind] at h
          obtain ⟨e1, b1⟩ := p
          simp at h
          exact Or.inl (h.1 ▸ (readExec_error h4).2)
        | ok a4 =>
          rw [h4] at h
          simp only [bind, Except.bind] at h
          try dsimp only at h
          by_cases hg :
              (colsOfT (live a4).tables t).filter
                (fun c => !(colsOfT cfg.pristine.file.tables t).contains c) ≠ [] ∧
              ¬ cfg.allowDeletions
          · rw [if_pos hg] at h
            simp at h
            exact Or.inr ⟨_, h.1.symm⟩
          · rw [if_neg hg] at h
            cases h5 : logExec cfg a4 (.copyData (t ++ "_migration_new") t
                ((colsOfT (live a4).tables t).filter
                  (fun c => (colsOfT cfg.pristine.file.tables t).contains c))) with
            | error p =>
              rw [h5] at h
              simp only [bind, Except.bind] at h
              obtain ⟨e1, b1⟩ := p
              simp at h
              exact Or.inl (h.1 ▸ (logExec_error h5).2)
            | ok a5 =>
              rw [h5] at h
              simp only [bind, Except.bind] at h
              try dsimp only at h
              cases h6 : logExec cfg a5 (.dropTable t) with
              | error p =>
                rw [h6] at h
                simp only [bind, Except.bind] at h
                obtain ⟨e1, b1⟩ := p
                simp at h
                exact Or.inl (h.1 ▸ (logExec_error h6).2)
              | ok a6 =>
                rw [h6] at h
                simp only [bind, Except.bind] at h
                try dsimp only at h
                cases h7 : logExec cfg a6 (.renameTable (t ++ "_migration_new") t) with
                | error p =>
                  rw [h7] at h
                  simp only [bind, Except.bind] at h
                  obtain ⟨e1, b1⟩ := p
                  simp at h
                  exact Or.inl (h.1 ▸ (logExec_error h7).2)
                | ok a7 =>
                  rw [h7] at h
                  simp only [bind, Except.bind] at h
                  try dsimp only at h
                  cases h8 : logExecAll cfg
                      ((depIndices cfg.pristine.file t).map
                        (fun e => Stmt.createObj .index e) ++
                       (depTriggers cfg.pristine.file t).map
                        (fun e => Stmt.createObj .trigger e)) a7 with
                  | error p =>
                    rw [h8] at h
                    simp only [bind, Except.bind] at h
                    obtain ⟨e1, b1⟩ := p
                    simp at h
                    exact Or.inl (h.1 ▸ logExecAll_error_kind h8)
                  | ok a8 =>
                    rw [h8] at h
                    simp only [bind, Except.bind] at h
                    simp [pure, Except.pure] at h

/-- The rebuild loop throws only the execution-failure error or a
refused-column-removal error naming one of its tables. -/
theorem recreateAll_error_kind {cfg : MigCfg} :
    ∀ {l : List String} {a b : St} {e : MigErr},
      recreateAll cfg l a = .error (e, b) →
      e = MigErr.execFailure ∨ ∃ cols t, t ∈ l ∧ e = MigErr.refuseRemoveColumns cols t := by
  intro l
  induction l with
  | nil =>
    intro a b e h
    simp [recreateAll] at h
  | cons t rest ih =>
    intro a b e h
    unfold recreateAll at h
    try dsimp only at h
    by_cases hsql : tblSql cfg.pristine.file.tables t ≠ ""
    · rw [if_pos hsql] at h
      cases hr : recreateTable cfg t (tblSql cfg.pristine.file.tables t) a with
      | error p =>
        rw [hr] at h
        obtain ⟨e1, b1⟩ := p
        simp at h
        rcases recreateTable_error_kind hr with hk | ⟨cols, hk⟩
        · exact Or.inl (h.1 ▸ hk)
        · exact Or.inr ⟨cols, t, by simp, h.1 ▸ hk⟩
      | ok a2 =>
        rw [hr] at h
        rcases ih h with hk | ⟨cols, t3, ht3, hk⟩
        · exact Or.inl hk
        · exact Or.inr ⟨cols, t3, by simp [ht3], hk⟩
    · rw [if_neg hsql] at h
      rcases ih h with hk | ⟨cols, t3, ht3, hk⟩
      · exact Or.inl hk
      · exact Or.inr ⟨cols, t3, by simp [ht3], hk⟩

/-- The table deletion guard is the only source of the
table-deletion-refused error, and it throws at the phase's entry state
before the phase executes anything. -/
theorem tablesPhase_refuseDelete {cfg : MigCfg} {a b : St} {ns : List String}
    (h : tablesPhase cfg a = .error (.refuseDeleteTables ns, b)) :
    b = a ∧ ns = removedTableNames cfg.pristine.file (live a).tables ∧
    ns ≠ [] ∧ ¬ cfg.allowDeletions := by
  unfold tablesPhase at h
  dsimp only at h
  by_cases hg :
      removedTableNames cfg.pristine.file (live a).tables ≠ [] ∧ ¬ cfg.allowDeletions
  · rw [if_pos hg] at h
    simp at h
    refine ⟨h.2.symm, h.1.symm, ?_, hg.2⟩
    rw [← h.1]
    exact hg.1
  · rw [if_neg hg] at h
    exfalso
    cases h1 : logExecAll cfg
        (((newTableList cfg.pristine.file (live a).tables).filter
          (fun e => e.sql ≠ "")).map
          (fun e => Stmt.createTable e.name e.sql e.cols)) a with
    | error p =>
      rw [h1] at h
      simp only [bind, Except.bind] at h
      obtain ⟨e1, b1⟩ := p
      simp at h
      have := logExecAll_error_kind h1
      rw [h.1] at this
      exact absurd this (by simp)
    | ok a1 =>
      rw [h1] at h
      simp only [bind, Except.bind] at h
      cases h2 : logExecAll cfg
          ((removedTableNames cfg.pristine.file (live a).tables).map Stmt.dropTable) a1 with
      | error p =>
        rw [h2] at h
        simp only [bind, Except.bind] at h
        obtain ⟨e1, b1⟩ := p
        simp at h
        have := logExecAll_error_kind h2
        rw [h.1] at this
        exact absurd this (by simp)
      | ok a2 =>
        rw [h2] at h
        simp only [bind, Except.bind] at h
        rcases recreateAll_error_kind h with hk | ⟨cols, t3, _, hk⟩
        · exact absurd hk (by simp)
        · exact absurd hk (by simp)

/-- The statements a table rebuild executes before its column guard. -/
def preRebuildStmt : Stmt → Bool
  | .readDeps _ => true
  | .dropTrigger _ => true
  | .createRenamed _ _ _ _ => true
  | .readTableInfo _ => true
  | _ => false

/-- The refused-column-removal error of a rebuild names the rebuilt table
and is thrown with only the dependency read, the live trigger drops, the
renamed-table create and the column read executed: no data copy, no drop
of the old table, no rename. -/
theorem recreateTable_err_cols {cfg : MigCfg} {t sql : String} {a stE : St}
    {cols : List String} {t2 : String}
    (hTx : a.txOpen = true)
    (h : recreateTable cfg t sql a = .error (.refuseRemoveColumns cols t2, stE)) :
    t2 = t ∧ PresP preRebuildStmt a stE := by
  unfold recreateTable at h
  have hp1 := readExec_pok (P := preRebuildStmt) (E := fun _ => True)
    cfg a (.readDeps t) hTx rfl rfl trivial
  cases h1 : readExec cfg a (.readDeps t) with
  | error p =>
    rw [h1] at h
    simp only [bind, Except.bind] at h
    obtain ⟨e1, b1⟩ := p
    simp at h
    have := (readExec_error h1).2
    rw [h.1] at this
    exact absurd this (by simp)
  | ok a1 =>
    rw [h1] at h
    simp only [bind, Except.bind] at h
    try dsimp only at h
    rw [h1] at hp1
    have hTx1 : a1.txOpen = true := by rw [hp1.2.1, hTx]
    have hl2 : ∀ s ∈ (depTriggers (live a1) t).map (fun e => Stmt.dropTrigger e.name),
        isMidStmt s = true ∧ preRebuildStmt s = true := by
      intro s hs
      simp [List.mem_map] at hs
      obtain ⟨e, he, rfl⟩ := hs
      exact ⟨rfl, rfl⟩
    have hp2 := logExecAll_pok (P := preRebuildStmt) (E := fun _ => True)
      cfg _ hl2 trivial a1 hTx1
    cases h2 : logExecAll cfg
        ((depTriggers (live a1) t).map (fun e => Stmt.dropTrigger e.name)) a1 with
    | error p =>
      rw [h2] at h
      simp only [bind, Except.bind] at h
      obtain ⟨e1, b1⟩ := p
      simp at h
      have := logExecAll_error_kind h2
      rw [h.1] at this
      exact absurd this (by simp)
    | ok a2 =>
      rw [h2] at h
      simp only [bind, Except.bind] at h
      try dsimp only at h
      rw [h2] at hp2
      have hTx2 : a2.txOpen = true := by rw [hp2.2.1, hTx1]
      have hp3 := logExec_pok (P := preRebuildStmt) (E := fun _ => True)
        cfg a2 (.createRenamed t (t ++ "_migration_new")
          (replaceWholeWordCI t (t ++ "_migration_new") sql)
          (colsOfT cfg.pristine.file.tables t)) hTx2 rfl rfl trivial
      cases h3 : logExec cfg a2 (.createRenamed t (t ++ "_migration_new")
          (replaceWholeWordCI t (t ++ "_migration_new") sql)
          (colsOfT cfg.pristine.file.tables t)) with
      | error p =>
        rw [h3] at h
        simp only [bind, Except.bind] at h
        obtain ⟨e1, b1⟩ := p
        simp at h
        have := (logExec_error h3).2
        rw [h.1] at this
        exact absurd this (by simp)
      | ok a3 =>
        rw [h3] at h
        simp only [bind, Except.bind] at h
        try dsimp only at h
        rw [h3] at hp3
        have hTx3 : a3.txOpen = true := by rw [hp3.2.1, hTx2]
        have hp4 := readExec_pok (P := preRebuildStmt) (E := fun _ => True)
          cfg a3 (.readTableInfo t) hTx3 rfl rfl trivial
        cases h4 : readExec cfg a3 (.readTableInfo t) with
        | error p =>
          rw [h4] at h
          simp only [bind, Except.bind] at h
          obtain ⟨e1, b1⟩ := p
          simp at h
          have := (readExec_error h4).2
          rw [h.1] at this
          exact absurd this (by simp)
        | ok a4 =>
          rw [h4] at h
          simp only [bind, Except.bind] at h
          try dsimp only at h
          rw [h4] at hp4
          by_cases hg :
              (colsOfT (live a4).tables t).filter
                (fun c => !(colsOfT cfg.pristine.file.tables t).contains c) ≠ [] ∧
              ¬ cfg.allowDeletions
          · rw [if_pos hg] at h
            simp at h
            refine ⟨h.1.2.symm, ?_⟩
            rw [← h.2]
            exact presP_trans (presP_trans (presP_trans hp1 hp2) hp3) hp4
          · rw [if_neg hg] at h
            exfalso
            cases h5 : logExec cfg a4 (.copyData (t ++ "_migration_new") t
                ((colsOfT (live a4).tables t).filter
                  (fun c => (colsOfT cfg.pristine.file.tables t).contains c))) with
            | error p =>
              rw [h5] at h
              simp only [bind, Except.bind] at h
              obtain ⟨e1, b1⟩ := p
              simp at h
              have := (logExec_error h5).2
              rw [h.1] at this
              exact absurd this (by simp)
            | ok a5 =>
              rw [h5] at h
              simp only [bind, Except.bind] at h
              try dsimp only at h
              cases h6 : logExec cfg a5 (.dropTable t) with
              | error p =>
                rw [h6] at h
                simp only [bind, Except.bind] at h
                obtain ⟨e1, b1⟩ := p
                simp at h
                have := (logExec_error h6).2
                rw [h.1] at this
                exact absurd this (by simp)
              | ok a6 =>
                rw [h6] at h
                simp only [bind, Except.bind] at h
                try dsimp only at h
                cases h7 : logExec cfg a6 (.renameTable (t ++ "_migration_new") t) with
                | error p =>
                  rw [h7] at h
                  simp only [bind, Except.bind] at h
                  obtain ⟨e1, b1⟩ := p
                  simp at h
                  have := (logExec_error h7).2
                  rw [h.1] at this
                  exact absurd this (by simp)
                | ok a7 =>
                  rw [h7] at h
                  simp only [bind, Except.bind] at h
                  try dsimp only at h
                  cases h8 : logExecAll cfg
                      ((depIndices cfg.pristine.file t).map
                        (fun e => Stmt.createObj .index e) ++
                       (depTriggers cfg.pristine.file t).map
                        (fun e => Stmt.createObj .trigger e)) a7 with
                  | error p =>
                    rw [h8] at h
                    simp only [bind, Except.bind] at h
                    obtain ⟨e1, b1⟩ := p
                    simp at h
                    have := logExecAll_error_kind h8
                    rw [h.1] at this
                    exact absurd this (by simp)
                  | ok a8 =>
                    rw [h8] at h
                    simp only [bind, Except.bind] at h
                    simp [pure, Except.pure] at h

/-- The C3 atomicity theorem evaluated at a concrete failing run: an empty
target schema against a populated database is refused, and the state is
rolled back. -/
theorem C3_witness :
    (migrateModel ⟨emptyPristine, false, engId⟩ dbPlain 0).st.file = dbPlain ∧
    (migrateModel ⟨emptyPristine, false, engId⟩ dbPlain 0).st.txOpen = false ∧
    (migrateModel ⟨emptyPristine, false, engId⟩ dbPlain 0).st.connFk = 0 :=
  C3_atomicity_on_failure ⟨emptyPristine, false, engId⟩ dbPlain 0
    (.refuseDeleteTables ["t"]) (by decide) (by decide)

/-- C4 amended.  Both deletion guards fire before any table mutation is
issued — though after the unconditional view drops, which the original
claim wrongly forbids: the table-deletion-refused error is thrown at the
table phase's entry state with nothing executed by that phase; the
refused-column-removal error of a rebuild names the rebuilt table and is
thrown when only the dependency read, the trigger drops, the
renamed-table create and the column read have executed, so before the
data copy, the old table's drop and the rename; and any propagated error
leaves the committed file unchanged. -/
theorem C4_amended (cfg : MigCfg) :
    (∀ a b ns, tablesPhase cfg a = .error (.refuseDeleteTables ns, b) →
      b = a ∧ ns = removedTableNames cfg.pristine.file (live a).tables) ∧
    (∀ t sql a cols t2 stE, a.txOpen = true →
      recreateTable cfg t sql a = .error (.refuseRemoveColumns cols t2, stE) →
      t2 = t ∧ PresP preRebuildStmt a stE) ∧
    (∀ file0 fk0 e, (migrateModel cfg file0 fk0).outcome = .error e →
      (migrateModel cfg file0 fk0).st.file = file0) := by
  refine ⟨?_, ?_, ?_⟩
  · intro a b ns h
    exact ⟨(tablesPhase_refuseDelete h).1, (tablesPhase_refuseDelete h).2.1⟩
  · intro t sql a cols t2 stE hTx h
    exact recreateTable_err_cols hTx h
  · intro file0 fk0 e h
    rcases migrateModel_cases cfg file0 fk0 with
      ⟨st2, st3, hpm, hc, heq⟩ | ⟨e2, stE, hsrc, heq⟩
    · rw [heq] at h
      simp at h
    · have hmid := performMigration_pok_mid cfg (stBegin file0 fk0) rfl
      have hE : stE.file = file0 := by
        rcases hsrc with hpm | ⟨st2, hpm, hcm⟩
        · rw [hpm] at hmid
          exact hmid.1.1
        · rw [hpm] at hmid
          have hse := readExec_error hcm
          rw [hse.1]
          exact hmid.1
      rw [heq]
      have hroll := applyStmt_rollback cfg.engine stE
      have hon := onErrorPhase_fields cfg.engine fk0
        (applyStmt cfg.engine stE .rollbackTx)
      rw [hon.1, hroll]
      exact hE

/-- Pristine image of a one-column table. -/
def priT1 : Pristine := ⟨⟨[⟨"t", "CREATE TABLE t(x)", ["x"]⟩], [], [], [], 0⟩, 0⟩

/-- Live file whose table carries an extra column `y`. -/
def dbT2 : DBFile := ⟨[⟨"t", "CREATE TABLE t(x, y)", ["x", "y"]⟩], [], [], [], 0⟩

/-- The state at which the rebuild of `dbT2`'s table towards `priT1`
throws its column guard. -/
def stE4 : St :=
  match recreateTable ⟨priT1, false, engId⟩ "t" "CREATE TABLE t(x)" (stBegin dbT2 0) with
  | .error (_, s) => s
  | .ok s => s

/-- The C4 amended guards evaluated at concrete inputs: a concrete refused
table deletion (thrown at the phase entry state) and a concrete refused
column removal (thrown before copy, drop and rename). -/
theorem C4_witness :
    (stBegin dbPlain 0 = stBegin dbPlain 0 ∧
      ["t"] = removedTableNames emptyPristine.file (live (stBegin dbPlain 0)).tables) ∧
    ("t" = "t" ∧ PresP preRebuildStmt (stBegin dbT2 0) stE4) :=
  ⟨(C4_amended ⟨emptyPristine, false, engId⟩).1 (stBegin dbPlain 0) (stBegin dbPlain 0)
      ["t"] (by decide),
   (C4_amended ⟨priT1, false, engId⟩).2.1 "t" "CREATE TABLE t(x)" (stBegin dbT2 0)
      ["y"] "t" stE4 (by decide) (by decide)⟩

/-! ## Raw versus normalized comparison in diffing (claim C6) -/

/-- When every pristine object of a kind is present in the live snapshot
under an identical raw sql text, the create-or-replace loop emits
nothing: it returns its input state unchanged. -/
theorem reconcileCreate_allMatch (cfg : MigCfg) (k : SKind) :
    ∀ (pObjs cur : List ObjEntry) (a : St),
      (∀ e ∈ pObjs, hasObj cur e.name = true ∧ objSql cur e.name = some e.sql) →
      reconcileCreate cfg k pObjs cur a = .ok a := by
  intro pObjs
  induction pObjs with
  | nil => intro cur a _; rfl
  | cons e rest ih =>
    intro cur a hall
    have he := hall e (by simp)
    unfold reconcileCreate
    rw [if_neg (by simp [he.1]), if_neg (by simp [he.2])]
    exact ih cur a (fun e2 he2 => hall e2 (by simp [he2]))

/-- When additionally no live object of the kind is obsolete, the whole
reconciliation phase executes nothing. -/
theorem reconcileObjs_allMatch (cfg : MigCfg) (k : SKind)
    (pObjs cur : List ObjEntry) (a : St)
    (hall : ∀ e ∈ pObjs, hasObj cur e.name = true ∧ objSql cur e.name = some e.sql)
    (hcov : ∀ e ∈ cur, hasObj pObjs e.name = true) :
    reconcileObjs cfg k pObjs cur a = .ok a := by
  unfold reconcileObjs
  have hnil : cur.filter (fun e => !hasObj pObjs e.name) = [] := by
    rw [List.filter_eq_nil]
    intro e he
    simp [hcov e he]
  rw [hnil]
  simp only [List.map_nil]
  show (logExecAll cfg [] a >>= fun st => reconcileCreate cfg k pObjs cur st) = .ok a
  simp only [logExecAll, bind, Except.bind]
  exact reconcileCreate_allMatch cfg k pObjs cur a hall

/-- A table whose live sql normalizes to the pristine sql is never
classified modified: the table diff compares normalized texts. -/
theorem modified_not_mem_of_normEq (p : DBFile) (tables : List TableEntry) (n : String)
    (hEq : ∀ e ∈ p.tables, e.name = n →
      normaliseSql (tblSql tables n) = normaliseSql e.sql) :
    n ∉ modifiedTableNames p tables := by
  intro hmem
  unfold modifiedTableNames at hmem
  simp [List.mem_map, List.mem_filter] at hmem
  obtain ⟨e, ⟨he, hpred⟩, hname⟩ := hmem
  rw [hname] at hpred
  exact hpred.2 (hEq e he hname)

/-- C6 amended.  The diff comparisons are split: the TABLE modified set is
computed from normalized sql texts — a table whose live sql normalizes to
the pristine sql is never classified modified — while index, trigger and
view reconciliation compares RAW sql texts: when every pristine object of
the kind has a live counterpart with byte-identical sql and no live
object is obsolete, the reconciliation phase executes nothing at all, and
a byte difference that normalizes away still triggers drop-and-recreate
(the counterexample). -/
theorem C6_amended (cfg : MigCfg) :
    (∀ p tables n,
      (∀ e ∈ p.tables, e.name = n →
        normaliseSql (tblSql tables n) = normaliseSql e.sql) →
      n ∉ modifiedTableNames p tables) ∧
    (∀ k pObjs cur a,
      (∀ e ∈ pObjs, hasObj cur e.name = true ∧ objSql cur e.name = some e.sql) →
      (∀ e ∈ cur, hasObj pObjs e.name = true) →
      reconcileObjs cfg k pObjs cur a = .ok a) :=
  ⟨modified_not_mem_of_normEq,
   fun k pObjs cur a h1 h2 => reconcileObjs_allMatch cfg k pObjs cur a h1 h2⟩

/-- A live table catalog whose sql differs from `priIdx`'s table only in
whitespace. -/
def tblWs : List TableEntry := [⟨"t", "CREATE  TABLE t(x)", ["x"]⟩]

/-- The C6 amended comparisons evaluated at concrete inputs: the
whitespace-differing table sql is not classified modified, and a
raw-identical index snapshot makes index reconciliation a no-op. -/
theorem C6_witness :
    "t" ∉ modifiedTableNames priIdx.file tblWs ∧
    reconcileObjs ⟨priIdx, false, engId⟩ .index
      [⟨"i", "t", "CREATE INDEX i ON t(x)"⟩] [⟨"i", "t", "CREATE INDEX i ON t(x)"⟩]
      (stBegin dbIdx 0) = .ok (stBegin dbIdx 0) :=
  ⟨(C6_amended ⟨priIdx, false, engId⟩).1 priIdx.file tblWs "t" (by decide),
   (C6_amended ⟨priIdx, false, engId⟩).2 .index
      [⟨"i", "t", "CREATE INDEX i ON t(x)"⟩] [⟨"i", "t", "CREATE INDEX i ON t(x)"⟩]
      (stBegin dbIdx 0) (by decide) (by decide)⟩

/-! ## Phase ordering on the success path (claim C9) -/

/-- Statements that leave every view catalog unchanged. -/
def viewInert : Stmt → Bool
  | .dropView _ => false
  | .createObj .view _ => false
  | _ => true

theorem viewStep_inert {s : Stmt} (h : viewInert s = true) (vs : List ObjEntry) :
    viewStep vs s = vs := by
  cases s with
  | createObj k e => cases k <;> simp_all [viewInert, viewStep]
  | _ => first | rfl | simp_all [viewInert]

theorem viewsAfter_inert : ∀ {l : List Stmt} (vs : List ObjEntry),
    (∀ s ∈ l, viewInert s = true) → viewsAfter vs l = vs := by
  intro l
  induction l with
  | nil => intro vs _; rfl
  | cons s rest ih =>
    intro vs hl
    show viewsAfter (viewStep vs s) rest = vs
    rw [viewStep_inert (hl s (by simp)) vs]
    exact ih vs (fun s2 hs2 => hl s2 (by simp [hs2]))

/-- Dropping a list of view names filters the catalog by those names. -/
theorem viewsAfter_dropList : ∀ (vs ws : List ObjEntry),
    viewsAfter ws (vs.map (fun v => Stmt.dropView v.name)) =
      ws.filter (fun e => !(vs.map (fun v => v.name)).contains e.name) := by
  intro vs
  induction vs with
  | nil =>
    intro ws
    simp [viewsAfter]
  | cons v rest ih =>
    intro ws
    show viewsAfter (viewStep ws (Stmt.dropView v.name))
      (rest.map (fun v => Stmt.dropView v.name)) = _
    rw [ih]
    simp only [viewStep]
    rw [List.filter_filter]
    apply List.filter_congr
    intro e he
    simp [List.contains_cons, Bool.and_comm]

/-- Dropping every name of the catalog empties it. -/
theorem viewsAfter_dropAll (vs : List ObjEntry) :
    viewsAfter vs (vs.map (fun v => Stmt.dropView v.name)) = [] := by
  rw [viewsAfter_dropList, List.filter_eq_nil]
  intro e he
  simp
  exact ⟨e, he, rfl⟩

/-- A successful view-drop phase appends exactly one `DROP VIEW` per live
view and leaves the transaction image with no views, the table catalog
and the transaction flag untouched. -/
theorem dropViewsPhase_ok_shape {cfg : MigCfg} {a b : St}
    (hTx : a.txOpen = true) (h : dropViewsPhase cfg a = .ok b) :
    b.trace = a.trace ++ a.tx.views.map (fun v => Stmt.dropView v.name) ∧
    b.tx.views = [] ∧ b.txOpen = true ∧ b.tx.tables = a.tx.tables := by
  have hlive : live a = a.tx := by simp [live, hTx]
  have h2 : logExecAll cfg ((live a).views.map (fun v => Stmt.dropView v.name)) a = .ok b := h
  have htr0 := logExecAll_ok_trace h2
  have htr : b.trace = a.trace ++ a.tx.views.map (fun v => Stmt.dropView v.name) := by
    rw [htr0, hlive]
  have hpok := dropViewsPhase_pok (P := tableInert) (E := fun _ => True)
    cfg a hTx (fun _ => rfl) trivial
  rw [h] at hpok
  obtain ⟨_, ht, _, _, δ, htr2, hp, hv, hta⟩ := hpok
  have hδ : δ = a.tx.views.map (fun v => Stmt.dropView v.name) := by
    have h3 := htr2.symm.trans htr
    exact List.append_cancel_left h3
  refine ⟨htr, ?_, by rw [ht, hTx], hta (fun s hs => hp s hs)⟩
  rw [hv, hδ, viewsAfter_dropAll]

/-- Statements the tables phase may execute. -/
def tableSegStmt : Stmt → Bool
  | .createTable _ _ _ => true
  | .dropTable _ => true
  | .readDeps _ => true
  | .dropTrigger _ => true
  | .createRenamed _ _ _ _ => true
  | .readTableInfo _ => true
  | .copyData _ _ _ => true
  | .renameTable _ _ => true
  | .createObj .index _ => true
  | .createObj .trigger _ => true
  | _ => false

/-- Statements index reconciliation may execute. -/
def idxSegStmt : Stmt → Bool
  | .dropIndex _ => true
  | .createObj .index _ => true
  | _ => false

/-- Statements trigger reconciliation may execute. -/
def trgSegStmt : Stmt → Bool
  | .dropTrigger _ => true
  | .createObj .trigger _ => true
  | _ => false

/-- Statements the `user_version` migration may execute. -/
def uvSegStmt : Stmt → Bool
  | .readUserVersion => true
  | .setUserVersion _ => true
  | _ => false

theorem tableSeg_viewInert {s : Stmt} (h : tableSegStmt s = true) :
    viewInert s = true := by
  cases s with
  | createObj k e => cases k <;> simp_all [tableSegStmt, viewInert]
  | _ => first | rfl | simp_all [tableSegStmt]

theorem idxSeg_viewInert {s : Stmt} (h : idxSegStmt s = true) :
    viewInert s = true := by
  cases s with
  | createObj k e => cases k <;> simp_all [idxSegStmt, viewInert]
  | _ => first | rfl | simp_all [idxSegStmt]

theorem trgSeg_viewInert {s : Stmt} (h : trgSegStmt s = true) :
    viewInert s = true := by
  cases s with
  | createObj k e => cases k <;> simp_all [trgSegStmt, viewInert]
  | _ => first | rfl | simp_all [trgSegStmt]

/-- Against an empty snapshot the create-or-replace loop creates every
pristine object, in pristine order, and nothing else. -/
theorem reconcileCreate_ok_creates {cfg : MigCfg} {k : SKind} :
    ∀ {pObjs : List ObjEntry} {a b : St},
      reconcileCreate cfg k pObjs [] a = .ok b →
      b.trace = a.trace ++ pObjs.map (Stmt.createObj k) := by
  intro pObjs
  induction pObjs with
  | nil =>
    intro a b h
    simp [reconcileCreate] at h
    simp [h]
  | cons e rest ih =>
    intro a b h
    unfold reconcileCreate at h
    rw [if_pos (by simp [hasObj])] at h
    cases hr : logExec cfg a (.createObj k e) with
    | error p =>
      rw [hr] at h
      simp at h
    | ok a2 =>
      rw [hr] at h
      have ha2 : a2.trace = a.trace ++ [Stmt.createObj k e] := by
        rw [logExec_ok hr]
        exact applyStmt_trace cfg.engine a _
      rw [ih h, ha2]
      simp

/-- Against an empty snapshot a reconciliation phase emits exactly the
pristine creations. -/
theorem reconcileObjs_nilcur_ok {cfg : MigCfg} {k : SKind}
    {pObjs : List ObjEntry} {a b : St}
    (h : reconcileObjs cfg k pObjs [] a = .ok b) :
    b.trace = a.trace ++ pObjs.map (Stmt.createObj k) := by
  unfold reconcileObjs at h
  simp only [List.filter_nil, List.map_nil] at h
  have h2 : reconcileCreate cfg k pObjs [] a = .ok b := by
    have : logExecAll cfg [] a = .ok a := rfl
    rw [this] at h
    simp only [bind, Except.bind] at h
    exact h
  exact reconcileCreate_ok_creates h2

/-- Exact shape of a successful table rebuild: the dependency snapshot,
the live trigger drops, the renamed `_migration_new` create from the
rewritten pristine sql, the column read, the common-column data copy, the
old table's drop, the rename over it, and the pristine index and trigger
re-creations, in this order and nothing else. -/
theorem recreateTable_ok_shape {cfg : MigCfg} {t sql : String} {a b : St}
    (h : recreateTable cfg t sql a = .ok b) :
    ∃ trgDrops common,
      (∀ s ∈ trgDrops, ∃ n, s = Stmt.dropTrigger n) ∧
      b.trace = a.trace ++ [Stmt.readDeps t] ++ trgDrops ++
        [Stmt.createRenamed t (t ++ "_migration_new")
          (replaceWholeWordCI t (t ++ "_migration_new") sql)
          (colsOfT cfg.pristine.file.tables t)] ++
        [Stmt.readTableInfo t] ++
        [Stmt.copyData (t ++ "_migration_new") t common] ++
        [Stmt.dropTable t] ++
        [Stmt.renameTable (t ++ "_migration_new") t] ++
        ((depIndices cfg.pristine.file t).map (fun e => Stmt.createObj .index e) ++
         (depTriggers cfg.pristine.file t).map (fun e => Stmt.createObj .trigger e)) := by
  unfold recreateTable at h
  cases h1 : readExec cfg a (.readDeps t) with
  | error p =>
    rw [h1] at h
    simp only [bind, Except.bind] at h
    simp at h
  | ok a1 =>
    rw [h1] at h
    simp only [bind, Except.bind] at h
    try dsimp only at h
    have ha1 : a1.trace = a.trace ++ [Stmt.readDeps t] := by
      rw [readExec_ok h1]
      exact applyStmt_trace cfg.engine a _
    cases h2 : logExecAll cfg
        ((depTriggers (live a1) t).map (fun e => Stmt.dropTrigger e.name)) a1 with
    | error p =>
      rw [h2] at h
      simp only [bind, Except.bind] at h
      simp at h
    | ok a2 =>
      rw [h2] at h
      simp only [bind, Except.bind] at h
      try dsimp only at h
      have ha2 := logExecAll_ok_trace h2
      cases h3 : logExec cfg a2 (.createRenamed t (t ++ "_migration_new")
          (replaceWholeWordCI t (t ++ "_migration_new") sql)
          (colsOfT cfg.pristine.file.tables t)) with
      | error p =>
        rw [h3] at h
        simp only [bind, Except.bind] at h
        simp at h
      | ok a3 =>
        rw [h3] at h
        simp only [bind, Except.bind] at h
        try dsimp only at h
        have ha3 : a3.trace = a2.trace ++ [Stmt.createRenamed t (t ++ "_migration_new")
            (replaceWholeWordCI t (t ++ "_migration_new") sql)
            (colsOfT cfg.pristine.file.tables t)] := by
          rw [logExec_ok h3]
          exact applyStmt_trace cfg.engine a2 _
        cases h4 : readExec cfg a3 (.readTableInfo t) with
        | error p =>
          rw [h4] at h
          simp only [bind, Except.bind] at h
          simp at h
        | ok a4 =>
          rw [h4] at h
          simp only [bind, Except.bind] at h
          try dsimp only at h
          have ha4 : a4.trace = a3.trace ++ [Stmt.readTableInfo t] := by
            rw [readExec_ok h4]
            exact applyStmt_trace cfg.engine a3 _
          by_cases hg :
              (colsOfT (live a4).tables t).filter
                (fun c => !(colsOfT cfg.pristine.file.tables t).contains c) ≠ [] ∧
              ¬ cfg.allowDeletions
          · rw [if_pos hg] at h
            simp at h
          · rw [if_neg hg] at h
            cases h5 : logExec cfg a4 (.copyData (t ++ "_migration_new") t
                ((colsOfT (live a4).tables t).filter
                  (fun c => (colsOfT cfg.pristine.file.tables t).contains c))) with
            | error p =>
              rw [h5] at h
              simp only [bind, Except.bind] at h
              simp at h
            | ok a5 =>
              rw [h5] at h
              simp only [bind, Except.bind] at h
              try dsimp only at h
              have ha5 : a5.trace = a4.trace ++ [Stmt.copyData (t ++ "_migration_new") t
                  ((colsOfT (live a4).tables t).filter
                    (fun c => (colsOfT cfg.pristine.file.tables t).contains c))] := by
                rw [logExec_ok h5]
                exact applyStmt_trace cfg.engine a4 _
              cases h6 : logExec cfg a5 (.dropTable t) with
              | error p =>
                rw [h6] at h
                simp only [bind, Except.bind] at h
                simp at h
              | ok a6 =>
                rw [h6] at h
                simp only [bind, Except.bind] at h
                try dsimp only at h
                have ha6 : a6.trace = a5.trace ++ [Stmt.dropTable t] := by
                  rw [logExec_ok h6]
                  exact applyStmt_trace cfg.engine a5 _
                cases h7 : logExec cfg a6 (.renameTable (t ++ "_migration_new") t) with
                | error p =>
                  rw [h7] at h
                  simp only [bind, Except.bind] at h
                  simp at h
                | ok a7 =>
                  rw [h7] at h
                  simp only [bind, Except.bind] at h
                  try dsimp only at h
                  have ha7 : a7.trace =
                      a6.trace ++ [Stmt.renameTable (t ++ "_migration_new") t] := by
                    rw [logExec_ok h7]
                    exact applyStmt_trace cfg.engine a6 _
                  cases h8 : logExecAll cfg
                      ((depIndices cfg.pristine.file t).map
                        (fun e => Stmt.createObj .index e) ++
                       (depTriggers cfg.pristine.file t).map
                        (fun e => Stmt.createObj .trigger e)) a7 with
                  | error p =>
                    rw [h8] at h
                    simp only [bind, Except.bind] at h
                    simp at h
                  | ok a8 =>
                    rw [h8] at h
                    simp only [bind, Except.bind] at h
                    simp only [pure, Except.pure, Except.ok.injEq] at h
                    have ha8 := logExecAll_ok_trace h8
                    refine ⟨(depTriggers (live a1) t).map (fun e => Stmt.dropTrigger e.name),
                      (colsOfT (live a4).tables t).filter
                        (fun c => (colsOfT cfg.pristine.file.tables t).contains c),
                      ?_, ?_⟩
                    · intro s hs
                      simp [List.mem_map] at hs
                      obtain ⟨e, _, rfl⟩ := hs
                      exact ⟨e.name, rfl⟩
                    · rw [← h, ha8, ha7, ha6, ha5, ha4, ha3, ha2, ha1]

/-- Fields of a successful uncounted step. -/
theorem readExec_ok_fields {cfg : MigCfg} {a b : St} {s : Stmt}
    (hTx : a.txOpen = true) (h : readExec cfg a s = .ok b)
    (hMid : isMidStmt s = true) :
    b.trace = a.trace ++ [s] ∧ b.tx.views = viewStep a.tx.views s ∧ b.txOpen = true := by
  have hb := readExec_ok h
  have hf := applyStmt_mid_fields cfg.engine a s hTx hMid
  subst hb
  exact ⟨hf.2.2.2.2.1, hf.2.2.2.2.2.1, by rw [hf.2.1, hTx]⟩

/-- Exact phase layout of a successful `performMigration` prefix: the two
catalog reads, one `DROP VIEW` per live view, the table work, the index
reconciliation behind its catalog read, the trigger reconciliation behind
its read, the re-creation of every pristine view behind the final read
(the live view snapshot is empty at that point, so views are never
compared and never dropped there), and the `user_version` migration. -/
theorem pmPrefix_ok_shape {cfg : MigCfg} {a m : St}
    (hTx : a.txOpen = true) (h : pmPrefix cfg a = .ok m) :
    ∃ tSeg iSeg gSeg uSeg,
      m.trace = a.trace ++
        [Stmt.readMaster .table] ++ [Stmt.readMaster .view] ++
        a.tx.views.map (fun v => Stmt.dropView v.name) ++
        tSeg ++ [Stmt.readMaster .index] ++ iSeg ++
        [Stmt.readMaster .trigger] ++ gSeg ++
        [Stmt.readMaster .view] ++
        cfg.pristine.file.views.map (Stmt.createObj .view) ++ uSeg ∧
      (∀ s ∈ tSeg, tableSegStmt s = true) ∧
      (∀ s ∈ iSeg, idxSegStmt s = true) ∧
      (∀ s ∈ gSeg, trgSegStmt s = true) ∧
      (∀ s ∈ uSeg, uvSegStmt s = true) := by
  unfold pmPrefix at h
  cases h1 : readExec cfg a (.readMaster .table) with
  | error p =>
    rw [h1] at h
    simp only [bind, Except.bind] at h
    simp at h
  | ok a1 =>
    rw [h1] at h
    simp only [bind, Except.bind] at h
    try dsimp only at h
    obtain ⟨ha1, hv1, hTx1⟩ := readExec_ok_fields hTx h1 rfl
    cases h2 : readExec cfg a1 (.readMaster .view) with
    | error p =>
      rw [h2] at h
      simp only [bind, Except.bind] at h
      simp at h
    | ok a2 =>
      rw [h2] at h
      simp only [bind, Except.bind] at h
      try dsimp only at h
      obtain ⟨ha2, hv2, hTx2⟩ := readExec_ok_fields hTx1 h2 rfl
      have hv1p : a1.tx.views = a.tx.views := hv1
      have hv2p : a2.tx.views = a1.tx.views := hv2
      cases h3 : dropViewsPhase cfg a2 with
      | error p =>
        rw [h3] at h
        simp only [bind, Except.bind] at h
        simp at h
      | ok a3 =>
        rw [h3] at h
        simp only [bind, Except.bind] at h
        try dsimp only at h
        obtain ⟨ha3, hv3, hTx3, _⟩ := dropViewsPhase_ok_shape hTx2 h3
        cases h4 : tablesPhase cfg a3 with
        | error p =>
          rw [h4] at h
          simp only [bind, Except.bind] at h
          simp at h
        | ok a4 =>
          rw [h4] at h
          simp only [bind, Except.bind] at h
          try dsimp only at h
          have hp4 := tablesPhase_pok (P := tableSegStmt) (E := fun _ => True)
            cfg a3 hTx3
            ⟨fun _ => rfl, fun _ => rfl, fun _ _ _ _ => rfl, fun _ => rfl,
             fun _ _ _ => rfl, fun _ => rfl, fun _ _ => rfl, fun _ => rfl, fun _ => rfl⟩
            (fun _ _ _ => rfl) trivial (fun _ _ => trivial) (fun _ => trivial)
          rw [h4] at hp4
          obtain ⟨_, ht4, _, _, tSeg, ha4, hpt, hv4c, _⟩ := hp4
          have hTx4 : a4.txOpen = true := by rw [ht4, hTx3]
          have hv4 : a4.tx.views = [] := by
            rw [hv4c, viewsAfter_inert a3.tx.views
              (fun s hs => tableSeg_viewInert (hpt s hs)), hv3]
          cases h5 : readExec cfg a4 (.readMaster .index) with
          | error p =>
            rw [h5] at h
            simp only [bind, Except.bind] at h
            simp at h
          | ok a5 =>
            rw [h5] at h
            simp only [bind, Except.bind] at h
            try dsimp only at h
            obtain ⟨ha5, hv5, hTx5⟩ := readExec_ok_fields hTx4 h5 rfl
            cases h6 : reconcileObjs cfg .index cfg.pristine.file.indices
                (live a5).indices a5 with
            | error p =>
              rw [h6] at h
              simp only [bind, Except.bind] at h
              simp at h
            | ok a6 =>
              rw [h6] at h
              simp only [bind, Except.bind] at h
              try dsimp only at h
              have hp6 := reconcileObjs_pok (P := idxSegStmt) (E := fun _ => True)
                cfg .index cfg.pristine.file.indices (live a5).indices a5 hTx5
                (fun _ => rfl) (fun _ => rfl) trivial
              rw [h6] at hp6
              obtain ⟨_, ht6, _, _, iSeg, ha6, hpi, hv6c, _⟩ := hp6
              have hTx6 : a6.txOpen = true := by rw [ht6, hTx5]
              have hv6 : a6.tx.views = [] := by
                rw [hv6c, viewsAfter_inert a5.tx.views
                  (fun s hs => idxSeg_viewInert (hpi s hs)), hv5]
                show viewStep a4.tx.views _ = []
                rw [hv4]
                rfl
              cases h7 : readExec cfg a6 (.readMaster .trigger) with
              | error p =>
                rw [h7] at h
                simp only [bind, Except.bind] at h
                simp at h
              | ok a7 =>
                rw [h7] at h
                simp only [bind, Except.bind] at h
                try dsimp only at h
                obtain ⟨ha7, hv7, hTx7⟩ := readExec_ok_fields hTx6 h7 rfl
                cases h8 : reconcileObjs cfg .trigger cfg.pristine.file.triggers
                    (live a7).triggers a7 with
                | error p =>
                  rw [h8] at h
                  simp only [bind, Except.bind] at h
                  simp at h
                | ok a8 =>
                  rw [h8] at h
                  simp only [bind, Except.bind] at h
                  try dsimp only at h
                  have hp8 := reconcileObjs_pok (P := trgSegStmt) (E := fun _ => True)
                    cfg .trigger cfg.pristine.file.triggers (live a7).triggers a7 hTx7
                    (fun _ => rfl) (fun _ => rfl) trivial
                  rw [h8] at hp8
                  obtain ⟨_, ht8, _, _, gSeg, ha8, hpg, hv8c, _⟩ := hp8
                  have hTx8 : a8.txOpen = true := by rw [ht8, hTx7]
                  have hv8 : a8.tx.views = [] := by
                    rw [hv8c, viewsAfter_inert a7.tx.views
                      (fun s hs => trgSeg_viewInert (hpg s hs)), hv7]
                    show viewStep a6.tx.views _ = []
                    rw [hv6]
                    rfl
                  cases h9 : readExec cfg a8 (.readMaster .view) with
                  | error p =>
                    rw [h9] at h
                    simp only [bind, Except.bind] at h
                    simp at h
                  | ok a9 =>
                    rw [h9] at h
                    simp only [bind, Except.bind] at h
                    try dsimp only at h
                    obtain ⟨ha9, hv9c, hTx9⟩ := readExec_ok_fields hTx8 h9 rfl
                    have hv9 : a9.tx.views = [] := by
                      rw [hv9c]
                      show viewStep a8.tx.views _ = []
                      rw [hv8]
                      rfl
                    have hlive9 : (live a9).views = [] := by
                      rw [show live a9 = a9.tx by simp [live, hTx9]]
                      exact hv9
                    rw [hlive9] at h
                    cases h10 : reconcileObjs cfg .view cfg.pristine.file.views [] a9 with
                    | error p =>
                      rw [h10] at h
                      simp only [bind, Except.bind] at h
                      simp at h
                    | ok a10 =>
                      rw [h10] at h
                      simp only [bind, Except.bind] at h
                      try dsimp only at h
                      have ha10 := reconcileObjs_nilcur_ok h10
                      have hp10 := reconcileObjs_pok (P := fun _ => true)
                        (E := fun _ => True) cfg .view cfg.pristine.file.views [] a9 hTx9
                        (fun _ => rfl) (fun _ => rfl) trivial
                      rw [h10] at hp10
                      have hTx10 : a10.txOpen = true := by rw [hp10.2.1, hTx9]
                      have hp11 := uvPhase_pok (P := uvSegStmt) (E := fun _ => True)
                        cfg a10 hTx10 rfl (fun _ => rfl) trivial
                      rw [h] at hp11
                      obtain ⟨_, _, _, _, uSeg, ha11, hpu, _, _⟩ := hp11
                      refine ⟨tSeg, iSeg, gSeg, uSeg, ?_, hpt, hpi, hpg, hpu⟩
                      rw [ha11, ha10, ha9, ha8, ha7, ha6, ha5, ha4, ha3, hv2p, hv1p,
                        ha2, ha1]

/-- C9.  Phase ordering: in every run that completes successfully, the
whole trace decomposes as the begin prologue, the two catalog reads, one
`DROP VIEW` per view live at begin (all view drops precede every table
mutation), the table segment, the index reconciliation behind its read,
the trigger reconciliation behind its read, the re-creation of every
pristine view (so views are recreated only after all table, index and
trigger work), the `user_version` segment, the foreign-key check segment,
the commit marker and the post-commit pragma/VACUUM epilogue; and within
one successful table rebuild the substeps run in the listed order:
dependency snapshot, trigger drops, renamed-table create, column read,
common-column copy, old table drop, rename, dependency re-creations. -/
theorem C9_phase_ordering (cfg : MigCfg) (file0 : DBFile) (fk0 : Nat) :
    ((∃ bv, (migrateModel cfg file0 fk0).outcome = .ok bv) →
      ∃ tSeg iSeg gSeg uSeg fSeg post,
        (migrateModel cfg file0 fk0).st.trace =
          beginTrace fk0 ++
          [Stmt.readMaster .table] ++ [Stmt.readMaster .view] ++
          file0.views.map (fun v => Stmt.dropView v.name) ++
          tSeg ++ [Stmt.readMaster .index] ++ iSeg ++
          [Stmt.readMaster .trigger] ++ gSeg ++
          [Stmt.readMaster .view] ++
          cfg.pristine.file.views.map (Stmt.createObj .view) ++ uSeg ++ fSeg ++
          [Stmt.commitTx] ++ post ∧
        (∀ s ∈ tSeg, tableSegStmt s = true) ∧
        (∀ s ∈ iSeg, idxSegStmt s = true) ∧
        (∀ s ∈ gSeg, trgSegStmt s = true) ∧
        (∀ s ∈ uSeg, uvSegStmt s = true) ∧
        (∀ s ∈ fSeg, s = Stmt.fkCheck) ∧
        (∀ s ∈ post, s = Stmt.readFk ∨ (∃ v, s = Stmt.setFk v) ∨ s = Stmt.vacuum)) ∧
    (∀ t sql a b, recreateTable cfg t sql a = .ok b →
      ∃ trgDrops common,
        (∀ s ∈ trgDrops, ∃ n, s = Stmt.dropTrigger n) ∧
        b.trace = a.trace ++ [Stmt.readDeps t] ++ trgDrops ++
          [Stmt.createRenamed t (t ++ "_migration_new")
            (replaceWholeWordCI t (t ++ "_migration_new") sql)
            (colsOfT cfg.pristine.file.tables t)] ++
          [Stmt.readTableInfo t] ++
          [Stmt.copyData (t ++ "_migration_new") t common] ++
          [Stmt.dropTable t] ++
          [Stmt.renameTable (t ++ "_migration_new") t] ++
          ((depIndices cfg.pristine.file t).map (fun e => Stmt.createObj .index e) ++
           (depTriggers cfg.pristine.file t).map (fun e => Stmt.createObj .trigger e))) := by
  constructor
  · rintro ⟨bv, hok⟩
    rcases migrateModel_cases cfg file0 fk0 with
      ⟨st2, st3, hpm, hc, heq⟩ | ⟨e2, stE, hsrc, heq⟩
    · rcases performMigration_split cfg (stBegin file0 fk0) with
        ⟨m, hpre, hsplit⟩ | ⟨p, hpre, hsplit⟩
      · rw [hsplit] at hpm
        obtain ⟨tSeg, iSeg, gSeg, uSeg, htr, hpt, hpi, hpg, hpu⟩ :=
          pmPrefix_ok_shape (a := stBegin file0 fk0) rfl hpre
        have hpok0 := pmPrefix_pok (P := fun _ => true) (E := fun _ => True)
          cfg (stBegin file0 fk0) rfl (fun _ _ _ => rfl) trivial
          (fun _ _ => trivial) (fun _ => trivial)
        rw [hpre] at hpok0
        have hTxm : m.txOpen = true := hpok0.2.1
        have hpf := fkPhase_pok (P := fun s => decide (s = Stmt.fkCheck))
          (E := fun _ => True) cfg m hTxm (by simp) trivial trivial
        rw [hpm] at hpf
        obtain ⟨_, _, _, _, fSeg, htrf, hpfp, _, _⟩ := hpf
        have hst3 := readExec_ok hc
        obtain ⟨_, post, hptr, hpp⟩ := afterCommitPhase_post cfg fk0 st3
        refine ⟨tSeg, iSeg, gSeg, uSeg, fSeg, post, ?_, hpt, hpi, hpg, hpu,
          (fun s hs => of_decide_eq_true (hpfp s hs)), hpp⟩
        rw [heq]
        show (afterCommitPhase cfg fk0 st3).trace = _
        have hbt : (stBegin file0 fk0).trace = beginTrace fk0 := rfl
        have hbv : (stBegin file0 fk0).tx.views = file0.views := rfl
        rw [hptr, hst3, applyStmt_trace, htrf, htr, hbt, hbv]
      · rw [hsplit] at hpm
        exact absurd hpm (by simp)
    · rw [heq] at hok
      simp at hok
  · intro t sql a b h
    exact recreateTable_ok_shape h

/-- The C9 decomposition evaluated at a concrete successful run: the first
migration of the empty database to the table-and-view schema. -/
theorem C9_witness :
    ∃ tSeg iSeg gSeg uSeg fSeg post,
      runFirst.st.trace =
        beginTrace 0 ++
        [Stmt.readMaster .table] ++ [Stmt.readMaster .view] ++
        dbEmpty.views.map (fun v => Stmt.dropView v.name) ++
        tSeg ++ [Stmt.readMaster .index] ++ iSeg ++
        [Stmt.readMaster .trigger] ++ gSeg ++
        [Stmt.readMaster .view] ++
        priWithView.file.views.map (Stmt.createObj .view) ++ uSeg ++ fSeg ++
        [Stmt.commitTx] ++ post ∧
      (∀ s ∈ tSeg, tableSegStmt s = true) ∧
      (∀ s ∈ iSeg, idxSegStmt s = true) ∧
      (∀ s ∈ gSeg, trgSegStmt s = true) ∧
      (∀ s ∈ uSeg, uvSegStmt s = true) ∧
      (∀ s ∈ fSeg, s = Stmt.fkCheck) ∧
      (∀ s ∈ post, s = Stmt.readFk ∨ (∃ v, s = Stmt.setFk v) ∨ s = Stmt.vacuum) :=
  (C9_phase_ordering ⟨priWithView, false, engId⟩ dbEmpty 0).1 ⟨true, by decide⟩

end Migrator
